import Mathlib

/-!
# Verification of the DDT dataset-generator core

Shallow embedding of the extraction / cross-validation pipeline of the
`ddt-dataset-generator` repository:

* `src/backend/src/processing/comparison.py` — `normalize`, `values_match`
  (including the `difflib.SequenceMatcher.ratio` similarity it calls) and
  `calculate_match_score`;
* `src/backend/src/processing/pipeline.py` — the per-sample classification
  step and the sample-level error handler of `ProcessingPipeline.process_single`;
* `src/backend/src/extractors/datalab.py`, `azure_ocr.py`, `gemini.py` —
  the three adapter `extract` operations, modelled over explicit traces of
  remote responses (one trace entry per outbound HTTP interaction).

Python strings are modelled as `List Char`; Python `None` as `Option`;
Python dicts holding extracted DDT fields as association lists
`List (String × Option PyStr)` (Python's `dict.get` returns `None` both for a
missing key and for a stored `None`, so the two collapse soundly).  Scores are
modelled as `ℚ`: every score the code builds is `matches/8`, a dyadic rational
represented exactly by a Python float, so the float comparison with the
threshold `0.95` coincides with the rational comparison.  Wall-clock time
(`processing_time_ms`) is not modelled.  Character case-folding is modelled on
the ASCII range, which covers every character class the comparison code
distinguishes (`[.,;:]`, `\s`, `A-Z`).
-/

namespace DDT

/-- Python strings, as lists of characters. -/
abbrev PyStr := List Char

/-- An extracted-fields dictionary: field name ↦ stored value (`none` models
Python `None`).  `dict.get` on a missing key also yields `none`. -/
abbrev Dict := List (String × Option PyStr)

/-- `d.get(field)` of `comparison.py` lines 166–167: the stored value, or
`None` when the key is absent. -/
def dictGet (d : Dict) (field : String) : Option PyStr :=
  match d.find? (fun p => p.1 == field) with
  | some p => p.2
  | none => none

/-! ## `normalize` (comparison.py lines 35–74) -/

/-- The whitespace class of Python's `\s` and `str.strip()` (ASCII range). -/
def pySpace (c : Char) : Bool :=
  c == ' ' || c == '\t' || c == '\n' || c == '\r' || c == '\x0b' || c == '\x0c'

/-- Python `str.lower()` on the ASCII range. -/
def pyLower (c : Char) : Char :=
  if 65 ≤ c.toNat ∧ c.toNat ≤ 90 then Char.ofNat (c.toNat + 32) else c

/-- Python `str.strip()`: drop leading and trailing whitespace. -/
def pyStrip (l : PyStr) : PyStr :=
  ((l.dropWhile pySpace).reverse.dropWhile pySpace).reverse

/-- `re.sub(r'\s+', ' ', value)`: replace every maximal whitespace run by a
single space. -/
def collapseWsAux : Bool → PyStr → PyStr
  | _, [] => []
  | inRun, c :: rest =>
    if pySpace c then
      if inRun then collapseWsAux true rest
      else ' ' :: collapseWsAux true rest
    else c :: collapseWsAux false rest

/-- `re.sub(r'\s+', ' ', value)` entry point: no run is open initially. -/
def collapseWs (l : PyStr) : PyStr := collapseWsAux false l

/-- The trailing-punctuation class of `re.sub(r'[.,;:]+$', '', value)`. -/
def pyPunct (c : Char) : Bool :=
  c == '.' || c == ',' || c == ';' || c == ':'

/-- Remove the maximal trailing run of characters satisfying `p`. -/
def dropEndWhile (p : Char → Bool) (l : PyStr) : PyStr :=
  (l.reverse.dropWhile p).reverse

/-- `normalize` of comparison.py lines 35–74: lower-case, strip, collapse
whitespace runs, strip trailing punctuation; empty result becomes `None`. -/
def normalize (value : Option PyStr) : Option PyStr :=
  match value with
  | none => none
  | some s =>
    let s1 := pyStrip (s.map pyLower)
    let s2 := collapseWs s1
    let s3 := dropEndWhile pyPunct s2
    if s3.isEmpty then none else some s3

/-! ## `difflib.SequenceMatcher` (CPython standard library)

`values_match` (comparison.py line 129) calls
`SequenceMatcher(None, norm1, norm2).ratio()`.  With `isjunk=None` the junk
set is empty, so of the four block-extension loops of `find_longest_match`
only the two "non-junk" ones act; the "popular element" heuristic (`autojunk`,
active when the second sequence has length ≥ 200) drops popular characters
from the index `b2j`.  `ratio` is `2*M/T` where `M` is the total size of the
matching blocks and `T` the sum of the lengths.  List indexing uses `getD`
with two distinct out-of-range defaults (`'\x00'` for `a`, `'\x01'` for `b`)
so an out-of-range access can never produce a spurious character match; all
reachable accesses are in range, as `BestOk` below establishes. -/

/-- One result of `find_longest_match`: block start in `a`, start in `b`,
and block size. -/
structure Flm where
  i : Nat
  j : Nat
  size : Nat
deriving DecidableEq, Repr

/-- `b2j` of `SequenceMatcher.__chain_b`: the ascending list of positions of a
character in `b`, with characters that are "popular" (appearing more than
`len(b)//100 + 1` times while `len(b) ≥ 200`) dropped from the index. -/
def b2jOf (b : PyStr) (c : Char) : List Nat :=
  let idxs := (List.range b.length).filter (fun j => b.getD j '\x00' == c)
  if decide (200 ≤ b.length) && decide (b.length / 100 + 1 < idxs.length) then []
  else idxs

/-- The `j` positions scanned for one row `i`: `b2j[a[i]]` restricted to the
window `[blo, bhi)` (the `j < blo: continue` / `j >= bhi: break` guards). -/
def rowJs (b2j : Char → List Nat) (ch : Char) (blo bhi : Nat) : List Nat :=
  (b2j ch).filter (fun j => decide (blo ≤ j) && decide (j < bhi))

/-- `dict.get` with default on an association list. -/
def lookupD (m : List (Nat × Nat)) (k d : Nat) : Nat :=
  match m.find? (fun p => p.1 == k) with
  | some p => p.2
  | none => d

/-- The run length ending at column `j` of the current row:
`j2len.get(j-1, 0) + 1` (a Python `-1` key lookup always misses). -/
def runLen (j2len : List (Nat × Nat)) (j : Nat) : Nat :=
  (if j == 0 then 0 else lookupD j2len (j - 1) 0) + 1

/-- The new `j2len` dictionary after one row (`newj2len` in CPython; lookups
go to the previous row's dictionary only). -/
def newJ2len (j2len : List (Nat × Nat)) (js : List Nat) : List (Nat × Nat) :=
  js.map (fun j => (j, runLen j2len j))

/-- The running-best update of one row: `if k > bestsize` takes the first
strictly larger run, scanning `j` ascending. -/
def bestStep (j2len : List (Nat × Nat)) (i : Nat) (js : List Nat) (best : Flm) : Flm :=
  js.foldl
    (fun best j =>
      let k := runLen j2len j
      if best.size < k then ⟨i + 1 - k, j + 1 - k, k⟩ else best)
    best

/-- The dynamic-programming scan of `find_longest_match` over the rows
`i ∈ [alo, ahi)`. -/
def flmRows (a : PyStr) (b2j : Char → List Nat) (blo bhi : Nat) :
    List Nat → List (Nat × Nat) → Flm → Flm
  | [], _, best => best
  | i :: rest, j2len, best =>
    let js := rowJs b2j (a.getD i '\x00') blo bhi
    flmRows a b2j blo bhi rest (newJ2len j2len js) (bestStep j2len i js best)

/-- The left non-junk extension loop of `find_longest_match` (the junk set is
empty for `SequenceMatcher(None, …)`): while the guard holds, move the block
one step left.  Each step needs `alo < best.i`, so `best.i` steps always
suffice; the fuel makes the recursion structural. -/
def extendLeftN (a b : PyStr) (alo blo : Nat) : Nat → Flm → Flm
  | 0, best => best
  | fuel + 1, best =>
    if alo < best.i ∧ blo < best.j ∧
        a.getD (best.i - 1) '\x00' == b.getD (best.j - 1) '\x01' then
      extendLeftN a b alo blo fuel ⟨best.i - 1, best.j - 1, best.size + 1⟩
    else best

/-- The left extension loop run to exhaustion. -/
def extendLeft (a b : PyStr) (alo blo : Nat) (best : Flm) : Flm :=
  extendLeftN a b alo blo best.i best

/-- The right non-junk extension loop of `find_longest_match`: each step needs
`best.i + best.size < ahi`, so `ahi - (best.i + best.size)` steps suffice. -/
def extendRightN (a b : PyStr) (ahi bhi : Nat) : Nat → Flm → Flm
  | 0, best => best
  | fuel + 1, best =>
    if best.i + best.size < ahi ∧ best.j + best.size < bhi ∧
        a.getD (best.i + best.size) '\x00' == b.getD (best.j + best.size) '\x01' then
      extendRightN a b ahi bhi fuel ⟨best.i, best.j, best.size + 1⟩
    else best

/-- The right extension loop run to exhaustion. -/
def extendRight (a b : PyStr) (ahi bhi : Nat) (best : Flm) : Flm :=
  extendRightN a b ahi bhi (ahi - (best.i + best.size)) best

/-- `find_longest_match(alo, ahi, blo, bhi)` with an empty junk set: the DP
scan starting from `(alo, blo, 0)`, then the two extension loops. -/
def findLongestMatch (a b : PyStr) (b2j : Char → List Nat)
    (alo ahi blo bhi : Nat) : Flm :=
  extendRight a b ahi bhi
    (extendLeft a b alo blo
      (flmRows a b2j blo bhi (List.range' alo (ahi - alo)) [] ⟨alo, blo, 0⟩))

/-- Total size of the matching blocks of `get_matching_blocks` on the window
`[alo, ahi) × [blo, bhi)`: the longest block plus the totals of the two
sub-windows around it (guards as in CPython's queue loop).  The recursion
depth is bounded by the window width `ahi - alo`, made explicit as `fuel`;
the wrapper `seqMatchSize` supplies exactly that bound, and
`matchTotalF_fuel_irrelevant` below shows any larger fuel gives the same
value. -/
def matchTotalF (a b : PyStr) (b2j : Char → List Nat) :
    Nat → Nat → Nat → Nat → Nat → Nat
  | 0, _, _, _, _ => 0
  | fuel + 1, alo, ahi, blo, bhi =>
    let m := findLongestMatch a b b2j alo ahi blo bhi
    if m.size == 0 then 0
    else
      m.size
        + (if alo < m.i ∧ blo < m.j then
            matchTotalF a b b2j fuel alo m.i blo m.j
          else 0)
        + (if m.i + m.size < ahi ∧ m.j + m.size < bhi then
            matchTotalF a b b2j fuel (m.i + m.size) ahi (m.j + m.size) bhi
          else 0)

/-- `M`: the total matched size of `SequenceMatcher(None, a, b)`. -/
def seqMatchSize (a b : PyStr) : Nat :=
  matchTotalF a b (b2jOf b) a.length 0 a.length 0 b.length

/-- `SequenceMatcher.ratio()` via `_calculate_ratio`: `2M/T`, or `1` when both
sequences are empty. -/
def seqRatio (a b : PyStr) : ℚ :=
  if a.length + b.length == 0 then 1
  else (2 * seqMatchSize a b : ℚ) / ((a.length : ℚ) + (b.length : ℚ))

/-! ## `values_match` (comparison.py lines 77–133) -/

/-- `values_match`: `None` handling, normalization, exact match, then fuzzy
match via `SequenceMatcher` for strings longer than 20 characters.  The float
threshold `0.85` is modelled as the rational `17/20`. -/
def values_match (val1 val2 : Option PyStr) (fuzzy_threshold : ℚ := 17/20) :
    Bool :=
  match val1, val2 with
  | none, none => true
  | none, some _ => false
  | some _, none => false
  | some v1, some v2 =>
    match normalize (some v1), normalize (some v2) with
    | none, none => true
    | none, some _ => false
    | some _, none => false
    | some norm1, some norm2 =>
      if norm1 == norm2 then true
      else if 20 < norm1.length || 20 < norm2.length then
        decide (fuzzy_threshold ≤ seqRatio norm1 norm2)
      else false

/-! ## `calculate_match_score` (comparison.py lines 136–188) -/

/-- The fixed 8-field comparison set `DDT_FIELDS` (comparison.py lines 23–32). -/
def DDT_FIELDS : List String :=
  ["mittente", "destinatario", "indirizzo_destinazione_completo",
   "data_documento", "data_trasporto", "numero_documento", "numero_ordine",
   "codice_cliente"]

/-- One iteration of the field loop: bump the match counter or append the
field to the discrepancy list. -/
def scoreStep (d g : Dict) (acc : Nat × List String) (field : String) :
    Nat × List String :=
  if values_match (dictGet d field) (dictGet g field) then (acc.1 + 1, acc.2)
  else (acc.1, acc.2 ++ [field])

/-- `calculate_match_score`: fold the 8 fields, score = matches/8. -/
def calculate_match_score (datalab_output gemini_output : Dict) :
    ℚ × List String :=
  let r := DDT_FIELDS.foldl (scoreStep datalab_output gemini_output) (0, [])
  (if 0 < DDT_FIELDS.length then (r.1 : ℚ) / (DDT_FIELDS.length : ℚ) else 0,
   r.2)

/-! ## Data model (database/models.py) -/

/-- `SampleStatus` of models.py. -/
inductive SampleStatus
  | pending | processing | auto_validated | needs_review | manually_validated
  | rejected | error
deriving DecidableEq, Repr

/-- `ValidationSource` of models.py. -/
inductive ValidationSource
  | datalab | gemini | manual
deriving DecidableEq, Repr

/-! ## Datalab extractor (extractors/datalab.py)

`extract` submits the PDF once, polls up to `max_polls` times, and converts
every internal exception into a failure result.  Remote behaviour is modelled
as one submission response plus a trace of poll responses (`pollTrace n` is
the response to the `n`-th poll attempt, `n` counted from 1). -/

/-- The parse outcome of the `extraction_schema_json` string carried by a
completed Datalab payload (datalab.py lines 129–138): the key may be missing
(the code then parses the default string, an empty JSON object), the string
may be empty (parsing skipped, empty dict), valid JSON, or malformed JSON
(tolerated as an empty dict). -/
inductive JsonStrOutcome
  | missingKey | emptyStr | parses (d : Dict) | malformed
deriving Repr

/-- The `extracted_json` the code keeps for each outcome: only valid JSON
yields fields, every other case is tolerated as an empty dict. -/
def jsonOfOutcome : JsonStrOutcome → Dict
  | .parses d => d
  | _ => []

/-- A completed Datalab result payload: the `markdown` field (read with
default `""`) and the structured-extraction JSON string. -/
structure DlPayload where
  markdown : Option String
  esj : JsonStrOutcome

/-- One response to the Datalab submission POST. -/
inductive DlSubmitResp
  | rate429 (text : String)
  | httpStatusErr (code : Nat) (text : String)
  | netErr (msg : String)
  | ok (request_id : Option String)

/-- One response to a Datalab poll GET. -/
inductive DlPollResp
  | rate429
  | httpErr (text : String)
  | netErr (msg : String)
  | status (s : String) (err : Option String) (payload : DlPayload)

/-- The exceptions internal to `DatalabExtractor` (datalab.py lines 25–37);
`extract` catches all of them. -/
inductive DlExc
  | timeoutExc (msg : String)
  | rateLimit (msg : String)
  | other (msg : String)

/-- `_submit_pdf` (datalab.py lines 188–248): a 429 raises the rate-limit
exception, HTTP / network errors raise `DatalabError`, a missing `request_id`
raises `DatalabError`. -/
def dlSubmit : DlSubmitResp → Except DlExc String
  | .rate429 text => .error (.rateLimit ("Rate limit exceeded: " ++ text))
  | .httpStatusErr code text =>
    .error (.other ("HTTP error submitting PDF: " ++ toString code ++ " - " ++ text))
  | .netErr msg => .error (.other ("Network error submitting PDF: " ++ msg))
  | .ok none => .error (.other "No request_id in response")
  -- (the source interpolates the response payload into this message)
  | .ok (some rid) => .ok rid

/-- The body of `_poll_for_completion`'s `for attempt in range(1, max_polls+1)`
loop (datalab.py lines 250–325).  `remaining` counts the iterations left;
falling off the loop raises the timeout exception.  A 429 or a non-terminal
status consumes the attempt and continues; an HTTP or network error continues
unless the budget is already exhausted (`attempt >= max_polls`), in which case
it raises a plain `DatalabError`. -/
def dlPollAux (trace : Nat → DlPollResp) (maxPolls pollInterval : Nat) :
    Nat → Nat → Except DlExc DlPayload
  | _, 0 =>
    .error (.timeoutExc ("Polling timeout after " ++ toString maxPolls
      ++ " attempts (" ++ toString (maxPolls * pollInterval) ++ " seconds)"))
  | attempt, remaining + 1 =>
    match trace attempt with
    | .rate429 => dlPollAux trace maxPolls pollInterval (attempt + 1) remaining
    | .httpErr text =>
      if maxPolls ≤ attempt then .error (.other ("Polling failed: " ++ text))
      else dlPollAux trace maxPolls pollInterval (attempt + 1) remaining
    | .netErr msg =>
      if maxPolls ≤ attempt then .error (.other ("Network error: " ++ msg))
      else dlPollAux trace maxPolls pollInterval (attempt + 1) remaining
    | .status s err payload =>
      if s == "complete" then .ok payload
      else if s == "failed" then
        .error (.other ("Datalab processing failed: "
          ++ err.getD "Unknown error"))
      else dlPollAux trace maxPolls pollInterval (attempt + 1) remaining

/-- `_poll_for_completion`: attempts numbered 1 … `max_polls`. -/
def dlPoll (trace : Nat → DlPollResp) (maxPolls pollInterval : Nat) :
    Except DlExc DlPayload :=
  dlPollAux trace maxPolls pollInterval 1 maxPolls

/-- `DatalabResult` (extractors/schemas.py), wall-clock time omitted. -/
structure DatalabResult where
  raw_ocr : String
  extracted_json : Dict
  success : Bool
  error_message : Option String
deriving Repr

/-- `DatalabExtractor.extract` (datalab.py lines 90–186): submit, poll, parse;
each internal exception class is converted into a failure result with a
non-null message. -/
def datalabExtract (submit : DlSubmitResp) (pollTrace : Nat → DlPollResp)
    (maxPolls pollInterval : Nat) : DatalabResult :=
  match dlSubmit submit >>= fun _ => dlPoll pollTrace maxPolls pollInterval with
  | .ok payload =>
    { raw_ocr := payload.markdown.getD ""
      extracted_json := jsonOfOutcome payload.esj
      success := true
      error_message := none }
  | .error (.timeoutExc m) =>
    { raw_ocr := "", extracted_json := [], success := false
      error_message := some ("Timeout after " ++ toString maxPolls
        ++ " polls: " ++ m) }
  | .error (.rateLimit m) =>
    { raw_ocr := "", extracted_json := [], success := false
      error_message := some ("Rate limit exceeded: " ++ m) }
  | .error (.other m) =>
    { raw_ocr := "", extracted_json := [], success := false
      error_message := some m }

/-! ## Azure OCR extractor (extractors/azure_ocr.py)

`extract` loops `while retry_count <= max_retries`, re-submitting only on
HTTP 429 and returning from every other branch.  `submitTrace n` is the
response to the `n`-th submission POST (from 1); `pollTrace n` the response to
the `n`-th poll GET (from 0, mirroring `range(max_polls)`).  Besides the
result, the model records the submission count and the back-off sleeps
(`retry_delay * retry_count` seconds) so the retry discipline is observable. -/

/-- `AzureOCRResult` (extractors/schemas.py), wall-clock time omitted. -/
structure AzureOCRResult where
  raw_text : String
  success : Bool
  error_message : Option String
deriving Repr

/-- One response to the Azure submission POST. -/
inductive AzSubmitResp
  | s429
  | httpOther (code : Nat) (text : String)
  | accepted (opLoc : Option String)
  | clientErr (msg : String)
  | exc (msg : String)

/-- One response to an Azure poll GET: a non-200 status, an exception during
the request (both logged and skipped), or a result document with its `status`
string, `analyzeResult.content` (default `""`) and optional `error.message`. -/
inductive AzPollResp
  | non200 (code : Nat)
  | exc (msg : String)
  | res (status : String) (content : String) (errMsg : Option String)

/-- `_poll_for_result` (azure_ocr.py lines 290–340): up to `max_polls`
attempts; only `"succeeded"` and `"failed"` stop the loop, everything else
(including poll errors) continues; exhaustion returns `None`. -/
def azPollAux (trace : Nat → AzPollResp) :
    Nat → Nat → Option (String × String × Option String)
  | _, 0 => none
  | n, remaining + 1 =>
    match trace n with
    | .non200 _ => azPollAux trace (n + 1) remaining
    | .exc _ => azPollAux trace (n + 1) remaining
    | .res st content errMsg =>
      if st == "succeeded" || st == "failed" then some (st, content, errMsg)
      else azPollAux trace (n + 1) remaining

/-- `_poll_for_result`, attempts numbered 0 … `max_polls - 1`. -/
def azPoll (trace : Nat → AzPollResp) (maxPolls : Nat) :
    Option (String × String × Option String) :=
  azPollAux trace 0 maxPolls

/-- The observable outcome of one `AzureOCRExtractor.extract` call: the
result, how many submission POSTs were made, and the sleeps between them. -/
structure AzOutcome where
  result : AzureOCRResult
  submitCalls : Nat
  waits : List Nat
deriving Repr

/-- The `while retry_count <= max_retries` loop of `extract` (azure_ocr.py
lines 151–279); `remaining` is `max_retries + 1 - retry_count`, the iterations
the guard still allows.  A 429 bumps `retry_count`, sleeps
`retry_delay * retry_count`, and re-submits while `retry_count ≤ max_retries`,
otherwise returns the rate-limit failure; every other submission response
terminates the call; `aiohttp.ClientError` and any other exception become
failure results. -/
def azureExtractAux (submitTrace : Nat → AzSubmitResp)
    (pollTrace : Nat → AzPollResp) (maxRetries retryDelay maxPolls : Nat) :
    Nat → Nat → List Nat → AzOutcome
  | 0, calls, waits =>
    ⟨{ raw_text := "", success := false
       error_message := some "Unexpected error in retry loop" }, calls, waits⟩
  | remaining + 1, calls, waits =>
    match submitTrace (calls + 1) with
    | .s429 =>
      let rc := (maxRetries + 1 - (remaining + 1)) + 1
      if rc ≤ maxRetries then
        azureExtractAux submitTrace pollTrace maxRetries retryDelay maxPolls
          remaining (calls + 1) (waits ++ [retryDelay * rc])
      else
        ⟨{ raw_text := "", success := false
           error_message := some ("Rate limit exceeded after "
             ++ toString maxRetries ++ " retries") }, calls + 1, waits⟩
    | .httpOther code text =>
      ⟨{ raw_text := "", success := false
         error_message := some ("HTTP " ++ toString code ++ ": "
           ++ text.take 200) }, calls + 1, waits⟩
    | .accepted none =>
      ⟨{ raw_text := "", success := false
         error_message := some "No Operation-Location header in response" },
       calls + 1, waits⟩
    | .accepted (some _) =>
      match azPoll pollTrace maxPolls with
      | none =>
        ⟨{ raw_text := "", success := false
           error_message := some ("Timeout after " ++ toString maxPolls
             ++ " polls") }, calls + 1, waits⟩
      | some (st, content, errMsg) =>
        if st == "succeeded" then
          ⟨{ raw_text := content, success := true, error_message := none },
           calls + 1, waits⟩
        else
          ⟨{ raw_text := "", success := false
             error_message := some (errMsg.getD ("Analysis failed with status: "
               ++ st)) }, calls + 1, waits⟩
    | .clientErr msg =>
      ⟨{ raw_text := "", success := false, error_message := some msg },
       calls + 1, waits⟩
    | .exc msg =>
      ⟨{ raw_text := "", success := false, error_message := some msg },
       calls + 1, waits⟩

/-- `AzureOCRExtractor.extract` (azure_ocr.py lines 126–288). -/
def azureExtract (submitTrace : Nat → AzSubmitResp)
    (pollTrace : Nat → AzPollResp) (maxRetries retryDelay maxPolls : Nat) :
    AzOutcome :=
  azureExtractAux submitTrace pollTrace maxRetries retryDelay maxPolls
    (maxRetries + 1) 0 []

/-! ## Gemini extractor (extractors/gemini.py) -/

/-- `GeminiResult` (extractors/schemas.py), wall-clock time omitted. -/
structure GeminiResult where
  extracted_json : Dict
  success : Bool
  error_message : Option String
deriving Repr

/-- The parse outcome of one Gemini response text. -/
inductive GemParse
  | valid (d : Dict)
  | invalid (msg : String)

/-- One outcome of a Gemini API call: a response text, an `asyncio` timeout,
or any other exception with its message. -/
inductive GemResp
  | ok (parse : GemParse)
  | timeoutExc
  | exc (msg : String)

/-- Character-list substring test (Python's `in` on strings). -/
def strHas (needle hay : PyStr) : Bool :=
  (List.range (hay.length + 1)).any fun k => needle.isPrefixOf (hay.drop k)

/-- The rate-limit detection of gemini.py line 219: `"429" in error_msg or
"quota" in error_msg.lower() or "rate" in error_msg.lower()`. -/
def isRateLimitMsg (m : String) : Bool :=
  strHas "429".data m.data || strHas "quota".data (m.data.map pyLower)
    || strHas "rate".data (m.data.map pyLower)

/-- The `for attempt in range(1, max_retries + 2)` loop of
`GeminiExtractor.extract` (gemini.py lines 122–243): a JSON parse error
retries while `attempt <= max_retries`, then fails; a timeout fails at once;
any other exception fails at once, flagged as a rate limit when its message
matches; `traceG n` is the outcome of the `n`-th API call (from 1). -/
def geminiExtractAux (traceG : Nat → GemResp) (maxRetries timeout : Nat) :
    Nat → Nat → GeminiResult
  | _, 0 =>
    { extracted_json := [], success := false
      error_message := some "Unexpected error in retry loop" }
  | attempt, remaining + 1 =>
    match traceG attempt with
    | .ok (.valid d) =>
      { extracted_json := d, success := true, error_message := none }
    | .ok (.invalid msg) =>
      if attempt ≤ maxRetries then
        geminiExtractAux traceG maxRetries timeout (attempt + 1) remaining
      else
        { extracted_json := [], success := false
          error_message := some ("Invalid JSON after " ++ toString maxRetries
            ++ " retries: " ++ msg) }
    | .timeoutExc =>
      { extracted_json := [], success := false
        error_message := some ("Timeout after " ++ toString timeout ++ "s") }
    | .exc msg =>
      if isRateLimitMsg msg then
        { extracted_json := [], success := false
          error_message := some ("Rate limit exceeded: " ++ msg) }
      else
        { extracted_json := [], success := false, error_message := some msg }

/-- `GeminiExtractor.extract`: attempts numbered 1 … `max_retries + 1`. -/
def geminiExtract (traceG : Nat → GemResp) (maxRetries timeout : Nat) :
    GeminiResult :=
  geminiExtractAux traceG maxRetries timeout 1 (maxRetries + 1)

/-! ## Processing pipeline (processing/pipeline.py) -/

/-- The auto-validation threshold `0.95` set in `ProcessingPipeline.__init__`
(pipeline.py line 107), exact as a rational. -/
def auto_validation_threshold : ℚ := 19/20

/-- The outcome of step 6 of `process_single` (pipeline.py lines 177–214):
status, optional match score, discrepancy list, `validated_output` and
`validation_source` as the local variables hold them after the branch. -/
structure Classification where
  status : SampleStatus
  match_score : Option ℚ
  discrepancies : List String
  validated_output : Dict
  validation_source : ValidationSource
deriving Repr

/-- The fallback branches of step 6: only Datalab succeeded (with a non-empty
dict) → `AUTO_VALIDATED` without a score; otherwise → `ERROR`. -/
def classifyFallback (dl : DatalabResult) : Classification :=
  if dl.success && !dl.extracted_json.isEmpty then
    { status := .auto_validated, match_score := none, discrepancies := []
      validated_output := dl.extracted_json, validation_source := .datalab }
  else
    { status := .error, match_score := none, discrepancies := []
      validated_output := [], validation_source := .datalab }

/-- Step 6 of `process_single` (pipeline.py lines 177–214).  The comparison
branch requires `datalab_result.success and gemini_result and
gemini_result.success and datalab_result.extracted_json and
gemini_result.extracted_json` — Python truthiness makes an empty dict fall
through to the fallback. -/
def classify (dl : DatalabResult) (gem : Option GeminiResult) :
    Classification :=
  match gem with
  | some g =>
    if dl.success && g.success && !dl.extracted_json.isEmpty
        && !g.extracted_json.isEmpty then
      let r := calculate_match_score dl.extracted_json g.extracted_json
      if auto_validation_threshold ≤ r.1 then
        { status := .auto_validated, match_score := some r.1
          discrepancies := r.2, validated_output := dl.extracted_json
          validation_source := .datalab }
      else
        { status := .needs_review, match_score := some r.1
          discrepancies := r.2, validated_output := []
          validation_source := .datalab }
    else classifyFallback dl
  | none => classifyFallback dl

/-- The resolution actually persisted by step 7: `update_data` receives
`validated_output`/`validation_source` only when `validated_output` is truthy
(pipeline.py lines 247–251). -/
def resolutionRecorded (c : Classification) : Option (Dict × ValidationSource) :=
  if c.validated_output.isEmpty then none
  else some (c.validated_output, c.validation_source)

/-- Database/stats side effects of `process_single`, in order. -/
inductive DbAction
  | updateStatus (st : SampleStatus)
  | updateResults (st : SampleStatus) (datalab_error : Option String)
      (score : Option ℚ) (resolution : Option (Dict × ValidationSource))
  | updateError (st : SampleStatus) (datalab_error : String)
  | incCounters (auto_validated needs_review errors processed : Nat)
deriving Repr

/-- `ProcessingResult` (pipeline.py lines 39–49), wall-clock time omitted. -/
structure ProcResult where
  sample_id : String
  success : Bool
  status : SampleStatus
  match_score : Option ℚ
  discrepancies : Option (List String)
  error_message : Option String
deriving Repr

/-- The environment one `process_single` call runs against: the repository
lookup, the storage fetch (which may raise), and the three adapter results
(adapters never raise; Gemini runs only when Azure succeeded, pipeline.py
lines 162–175, and the surrounding `try` re-raises nothing because both
extractors return result values). -/
structure PipeEnv where
  sample_id : String
  sampleFound : Bool
  pdfFetch : Except String Unit
  dl : DatalabResult
  azure : AzureOCRResult
  geminiOf : GeminiResult

/-- The `gemini_result` local after step 5: set only if Azure succeeded. -/
def pipeGemini (env : PipeEnv) : Option GeminiResult :=
  if env.azure.success then some env.geminiOf else none

/-- The stats increment of step 7 for a terminal status (pipeline.py lines
256–261). -/
def statsInc (st : SampleStatus) : List DbAction :=
  if st = .auto_validated then [.incCounters 1 0 0 1]
  else if st = .needs_review then [.incCounters 0 1 0 1]
  else if st = .error then [.incCounters 0 0 1 1]
  else []

/-- The `except Exception` handler of `process_single` (pipeline.py lines
278–302): mark the sample `ERROR`, store the fault text in `datalab_error`,
bump the error counters, and return a failed result instead of raising. -/
def faultExit (env : PipeEnv) (pre : List DbAction) (msg : String) :
    ProcResult × List DbAction :=
  ({ sample_id := env.sample_id, success := false, status := .error
     match_score := none, discrepancies := none, error_message := some msg },
   pre ++ [.updateError .error msg, .incCounters 0 0 1 1])

/-- `ProcessingPipeline.process_single` (pipeline.py lines 115–302): the
happy path classifies and persists; a missing sample or a storage fault is
caught by the handler.  The returned list is the ordered database/stats
effect trace. -/
def process_single (env : PipeEnv) : ProcResult × List DbAction :=
  if !env.sampleFound then
    faultExit env [] ("Sample " ++ env.sample_id ++ " not found")
  else
    match env.pdfFetch with
    | .error msg => faultExit env [.updateStatus .processing] msg
    | .ok () =>
      let c := classify env.dl (pipeGemini env)
      (({ sample_id := env.sample_id, success := true, status := c.status
          match_score := c.match_score, discrepancies := some c.discrepancies
          error_message := none } : ProcResult),
       [.updateStatus .processing,
        .updateResults c.status env.dl.error_message c.match_score
          (resolutionRecorded c)]
        ++ statsInc c.status)

/-! ## Properties of `calculate_match_score` -/

/-- The field-match predicate of one comparison run. -/
def fieldMatches (d g : Dict) (field : String) : Bool :=
  values_match (dictGet d field) (dictGet g field)

/-- The field loop of `calculate_match_score`, characterised: the counter
counts the matching fields, the discrepancy list collects the others in field
order. -/
theorem foldl_scoreStep (d g : Dict) :
    ∀ (l : List String) (m : Nat) (ds : List String),
      l.foldl (scoreStep d g) (m, ds)
        = (m + (l.filter (fieldMatches d g)).length,
           ds ++ l.filter (fun f => !fieldMatches d g f)) := by
  intro l
  induction l with
  | nil => intro m ds; simp
  | cons f t ih =>
    intro m ds
    simp only [List.foldl_cons]
    by_cases h : fieldMatches d g f = true
    · have hs : scoreStep d g (m, ds) f = (m + 1, ds) := by
        have h' : values_match (dictGet d f) (dictGet g f) = true := h
        simp [scoreStep, h']
      rw [hs, ih, List.filter_cons, List.filter_cons]
      simp only [h, if_pos, Bool.not_true, Bool.false_eq_true, if_neg,
        List.length_cons, if_false, Prod.mk.injEq]
      exact ⟨by omega, trivial⟩
    · have h' : values_match (dictGet d f) (dictGet g f) = false := by
        simpa [fieldMatches] using h
      have hs : scoreStep d g (m, ds) f = (m, ds ++ [f]) := by
        simp [scoreStep, h']
      rw [hs, ih, List.filter_cons, List.filter_cons]
      have hb : fieldMatches d g f = false := by simpa using h
      simp [hb]

theorem calculate_match_score_eq (d g : Dict) :
    calculate_match_score d g
      = (((DDT_FIELDS.filter (fieldMatches d g)).length : ℚ) / 8,
         DDT_FIELDS.filter (fun f => !fieldMatches d g f)) := by
  have h := foldl_scoreStep d g DDT_FIELDS 0 []
  simp only [calculate_match_score, h]
  norm_num [DDT_FIELDS]

/-- Matching fields and discrepant fields partition the 8 fields. -/
theorem matches_add_disc (d g : Dict) :
    (DDT_FIELDS.filter (fieldMatches d g)).length
      + (DDT_FIELDS.filter (fun f => !fieldMatches d g f)).length = 8 := by
  have h := List.length_eq_countP_add_countP (p := fieldMatches d g) DDT_FIELDS
  simp only [List.countP_eq_length_filter] at h
  have hfe : DDT_FIELDS.filter (fun a => decide ¬(fieldMatches d g a = true))
      = DDT_FIELDS.filter (fun f => !fieldMatches d g f) := by
    apply List.filter_congr
    intro f _
    simp
  rw [hfe] at h
  have h8 : DDT_FIELDS.length = 8 := by decide
  omega

/-- **C3.** For every pair of input dicts `A`, `B`, `calculate_match_score`
returns a score in `[0, 1]`, and the score equals `1.0` iff the returned
discrepancy list is empty. -/
theorem score_in_unit_interval_and_one_iff_no_discrepancies (A B : Dict) :
    0 ≤ (calculate_match_score A B).1 ∧ (calculate_match_score A B).1 ≤ 1 ∧
      ((calculate_match_score A B).1 = 1 ↔ (calculate_match_score A B).2 = []) := by
  have hpart := matches_add_disc A B
  rw [calculate_match_score_eq A B]
  dsimp only
  set mn := (DDT_FIELDS.filter (fieldMatches A B)).length with hmn
  set dl := DDT_FIELDS.filter (fun f => !fieldMatches A B f) with hdl
  have hm8 : mn ≤ 8 := by omega
  refine ⟨by positivity, ?_, ?_⟩
  · rw [div_le_one (by norm_num)]
    exact_mod_cast hm8
  · constructor
    · intro h1
      have hq : (mn : ℚ) = 8 := by
        field_simp at h1
        exact_mod_cast h1
      have hmn8 : mn = 8 := by exact_mod_cast hq
      have hd0 : dl.length = 0 := by omega
      exact List.length_eq_zero.mp hd0
    · intro h2
      have hd0 : dl.length = 0 := by rw [h2]; rfl
      have hmn8 : mn = 8 := by omega
      rw [hmn8]
      norm_num

/-- **C9.** The discrepancy list is an order-preserving subsequence of the
fixed 8-field list, and the score equals `(8 - len(discrepancies)) / 8`. -/
theorem discrepancies_sublist_and_score_formula (A B : Dict) :
    (calculate_match_score A B).2.Sublist DDT_FIELDS ∧
      (calculate_match_score A B).1
        = (8 - ((calculate_match_score A B).2.length : ℚ)) / 8 := by
  have hpart := matches_add_disc A B
  rw [calculate_match_score_eq A B]
  dsimp only
  refine ⟨List.filter_sublist _, ?_⟩
  have hc : ((DDT_FIELDS.filter (fieldMatches A B)).length : ℚ)
      + ((DDT_FIELDS.filter (fun f => !fieldMatches A B f)).length : ℚ) = 8 := by
    exact_mod_cast hpart
  rw [show ((DDT_FIELDS.filter (fieldMatches A B)).length : ℚ)
      = 8 - ((DDT_FIELDS.filter (fun f => !fieldMatches A B f)).length : ℚ) by
    linarith]

/-! ## Classification claims -/

/-- **C1.** When both extraction paths produced structured JSON (both calls
succeeded with non-empty dicts — the condition of pipeline.py line 184), the
sample is `AUTO_VALIDATED` with the Datalab output persisted as resolution
exactly when the score is ≥ 0.95, and `NEEDS_REVIEW` with no resolution when
the score is < 0.95; a score of 0.875 routes to `NEEDS_REVIEW`. -/
theorem classify_threshold_decision (dl : DatalabResult) (g : GeminiResult)
    (h1 : dl.success = true) (h2 : g.success = true)
    (h3 : dl.extracted_json ≠ []) (h4 : g.extracted_json ≠ []) :
    ((19/20 : ℚ) ≤ (calculate_match_score dl.extracted_json g.extracted_json).1 →
      (classify dl (some g)).status = .auto_validated ∧
      resolutionRecorded (classify dl (some g))
        = some (dl.extracted_json, .datalab)) ∧
    ((calculate_match_score dl.extracted_json g.extracted_json).1 < 19/20 →
      (classify dl (some g)).status = .needs_review ∧
      resolutionRecorded (classify dl (some g)) = none) ∧
    ((calculate_match_score dl.extracted_json g.extracted_json).1 = 7/8 →
      (classify dl (some g)).status = .needs_review) := by
  have he3 : dl.extracted_json.isEmpty = false := by simpa using h3
  have he4 : g.extracted_json.isEmpty = false := by simpa using h4
  have hcond : (dl.success && g.success && !dl.extracted_json.isEmpty
      && !g.extracted_json.isEmpty) = true := by
    simp [h1, h2, he3, he4]
  have hth : auto_validation_threshold = (19/20 : ℚ) := rfl
  by_cases hs : (19/20 : ℚ)
      ≤ (calculate_match_score dl.extracted_json g.extracted_json).1
  · have hcls : classify dl (some g)
        = { status := .auto_validated
            match_score := some (calculate_match_score dl.extracted_json
              g.extracted_json).1
            discrepancies := (calculate_match_score dl.extracted_json
              g.extracted_json).2
            validated_output := dl.extracted_json
            validation_source := .datalab } := by
      simp only [classify, hcond, if_true]
      rw [if_pos (hth ▸ hs)]
    refine ⟨fun _ => ⟨by rw [hcls], ?_⟩, fun hlt => absurd hs (not_le.mpr hlt),
      fun heq => ?_⟩
    · rw [hcls]
      simp [resolutionRecorded, he3]
    · rw [heq] at hs
      norm_num at hs
  · have hcls : classify dl (some g)
        = { status := .needs_review
            match_score := some (calculate_match_score dl.extracted_json
              g.extracted_json).1
            discrepancies := (calculate_match_score dl.extracted_json
              g.extracted_json).2
            validated_output := []
            validation_source := .datalab } := by
      simp only [classify, hcond, if_true]
      rw [if_neg (hth ▸ hs)]
    exact ⟨fun hge => absurd hge hs,
      fun _ => ⟨by rw [hcls], by rw [hcls]; simp [resolutionRecorded]⟩,
      fun _ => by rw [hcls]⟩

/-- Witness for C1 at a concrete pair of identical one-field outputs (score 1)
— both hypotheses of the threshold theorem discharged concretely. -/
theorem classify_threshold_decision_witness :
    (classify ⟨"", [("mittente", some ['a'])], true, none⟩
      (some ⟨[("mittente", some ['a'])], true, none⟩)).status
        = .auto_validated ∧
    resolutionRecorded (classify ⟨"", [("mittente", some ['a'])], true, none⟩
      (some ⟨[("mittente", some ['a'])], true, none⟩))
      = some ([("mittente", some ['a'])], .datalab) :=
  (classify_threshold_decision
    ⟨"", [("mittente", some ['a'])], true, none⟩
    ⟨[("mittente", some ['a'])], true, none⟩
    rfl rfl (by decide) (by decide)).1 (by
      show (19/20 : ℚ) ≤ (calculate_match_score [("mittente", some ['a'])]
        [("mittente", some ['a'])]).1
      rw [calculate_match_score_eq]
      have h8 : (DDT_FIELDS.filter (fieldMatches [("mittente", some ['a'])]
          [("mittente", some ['a'])])).length = 8 := by decide
      dsimp only
      rw [h8]
      norm_num)

/-- **C2 counterexample.** A Datalab call that reports success but whose
malformed structured JSON was tolerated as an empty object is nevertheless
classified `ERROR` by the pipeline: the empty dict is falsy, so the sample
falls through both non-error branches of step 6. -/
theorem error_despite_datalab_success :
    (datalabExtract (.ok (some "req-1"))
      (fun _ => .status "complete" none ⟨some "md", .malformed⟩) 100 3).success
        = true ∧
    (classify
      (datalabExtract (.ok (some "req-1"))
        (fun _ => .status "complete" none ⟨some "md", .malformed⟩) 100 3)
      none).status = .error ∧
    SampleStatus.error ≠ .auto_validated ∧ SampleStatus.error ≠ .needs_review := by
  refine ⟨rfl, rfl, by decide, by decide⟩

/-- **C2 amended.** A sample is classified `ERROR` iff path A failed **or**
path A's structured JSON is empty (in particular, tolerated-as-empty malformed
JSON still yields `ERROR` despite the successful extract call); with a
successful path A and non-empty JSON the status is `AUTO_VALIDATED` or
`NEEDS_REVIEW`. -/
theorem classify_error_iff (dl : DatalabResult) (gem : Option GeminiResult) :
    ((classify dl gem).status = .error
      ↔ (dl.success = false ∨ dl.extracted_json = [])) ∧
    ((classify dl gem).status ≠ .error →
      (classify dl gem).status = .auto_validated ∨
      (classify dl gem).status = .needs_review) := by
  have hfb : ∀ d : DatalabResult, (classifyFallback d).status = .error
      ↔ (d.success = false ∨ d.extracted_json = []) := by
    intro d
    by_cases hs : d.success <;> by_cases he : d.extracted_json.isEmpty <;>
      simp_all [classifyFallback]
  have hfb2 : ∀ d : DatalabResult, (classifyFallback d).status = .error ∨
      (classifyFallback d).status = .auto_validated := by
    intro d
    unfold classifyFallback
    split <;> simp
  constructor
  · cases gem with
    | none => simpa [classify] using hfb dl
    | some g =>
      by_cases hc : (dl.success && g.success && !dl.extracted_json.isEmpty
          && !g.extracted_json.isEmpty) = true
      · have hc' := hc
        simp only [Bool.and_eq_true, Bool.not_eq_true',
          List.isEmpty_eq_false] at hc'
        simp only [classify, hc, if_true]
        split <;> simp [hc'.1.1.1, hc'.1.2]
      · have hcf : (dl.success && g.success && !dl.extracted_json.isEmpty
            && !g.extracted_json.isEmpty) = false := by
          simpa using hc
        simp only [classify, hcf, Bool.false_eq_true, if_false]
        exact hfb dl
  · cases gem with
    | none =>
      intro hne
      simp only [classify] at hne ⊢
      rcases hfb2 dl with h | h
      · exact absurd h hne
      · exact Or.inl h
    | some g =>
      intro hne
      by_cases hc : (dl.success && g.success && !dl.extracted_json.isEmpty
          && !g.extracted_json.isEmpty) = true
      · simp only [classify, hc, if_true] at hne ⊢
        split <;> simp
      · have hcf : (dl.success && g.success && !dl.extracted_json.isEmpty
            && !g.extracted_json.isEmpty) = false := by
          simpa using hc
        simp only [classify, hcf, Bool.false_eq_true, if_false] at hne ⊢
        rcases hfb2 dl with h | h
        · exact absurd h hne
        · exact Or.inl h

/-- Witness for the amended C2 claim: a successful Datalab result with a
non-empty dict is not `ERROR`, hence `AUTO_VALIDATED` or `NEEDS_REVIEW`. -/
theorem classify_error_iff_witness :
    (classify ⟨"", [("numero_documento", some ['1'])], true, none⟩ none).status
        = .auto_validated ∨
    (classify ⟨"", [("numero_documento", some ['1'])], true, none⟩ none).status
        = .needs_review :=
  (classify_error_iff ⟨"", [("numero_documento", some ['1'])], true, none⟩
    none).2 (by decide)

/-! ## Pipeline fault handling -/

/-- **C10.** When `process_single` catches an unexpected exception (a missing
sample or a storage-fetch failure), it marks the sample `ERROR` with the fault
text in the `datalab_error` slot, increments the errors and processed
counters, and returns a failed `ProcessingResult` instead of raising. -/
theorem process_single_fault_handling (env : PipeEnv) (msg : String)
    (hfault : (env.sampleFound = false
        ∧ msg = "Sample " ++ env.sample_id ++ " not found")
      ∨ (env.sampleFound = true ∧ env.pdfFetch = .error msg)) :
    (process_single env).1.success = false ∧
    (process_single env).1.status = .error ∧
    (process_single env).1.error_message = some msg ∧
    DbAction.updateError .error msg ∈ (process_single env).2 ∧
    DbAction.incCounters 0 0 1 1 ∈ (process_single env).2 := by
  rcases hfault with ⟨h1, h2⟩ | ⟨h1, h2⟩
  · subst h2
    simp [process_single, h1, faultExit]
  · simp [process_single, h1, h2, faultExit]

/-- Witness for C10: a lookup for an absent sample id. -/
theorem process_single_fault_handling_witness :
    (process_single ⟨"s1", false, .ok (), ⟨"", [], false, none⟩,
        ⟨"", false, none⟩, ⟨[], false, none⟩⟩).1.success = false ∧
    (process_single ⟨"s1", false, .ok (), ⟨"", [], false, none⟩,
        ⟨"", false, none⟩, ⟨[], false, none⟩⟩).1.status = .error ∧
    (process_single ⟨"s1", false, .ok (), ⟨"", [], false, none⟩,
        ⟨"", false, none⟩, ⟨[], false, none⟩⟩).1.error_message
      = some "Sample s1 not found" ∧
    DbAction.updateError .error "Sample s1 not found"
      ∈ (process_single ⟨"s1", false, .ok (), ⟨"", [], false, none⟩,
          ⟨"", false, none⟩, ⟨[], false, none⟩⟩).2 ∧
    DbAction.incCounters 0 0 1 1
      ∈ (process_single ⟨"s1", false, .ok (), ⟨"", [], false, none⟩,
          ⟨"", false, none⟩, ⟨[], false, none⟩⟩).2 :=
  process_single_fault_handling
    ⟨"s1", false, .ok (), ⟨"", [], false, none⟩, ⟨"", false, none⟩,
      ⟨[], false, none⟩⟩
    "Sample s1 not found" (Or.inl ⟨rfl, rfl⟩)

/-! ## Failure encoding of the three extractors -/

/-- Failure encoding of the Azure `extract` loop, all loop states. -/
theorem azureAux_failure_encoding (st : Nat → AzSubmitResp)
    (pt : Nat → AzPollResp) (mr rd mp : Nat) :
    ∀ rem calls waits,
      ((azureExtractAux st pt mr rd mp rem calls waits).result.success = false
        ↔ (azureExtractAux st pt mr rd mp rem calls waits).result.error_message
            ≠ none) := by
  intro rem
  induction rem with
  | zero => intro calls waits; simp [azureExtractAux]
  | succ r ih =>
    intro calls waits
    simp only [azureExtractAux]
    cases st (calls + 1) with
    | s429 =>
      by_cases hrc : mr - r + 1 ≤ mr
      · simp only [Nat.succ_sub_succ, hrc, if_true]
        exact ih (calls + 1) _
      · simp [Nat.succ_sub_succ, hrc]
    | httpOther code text => simp
    | accepted opLoc =>
      cases opLoc with
      | none => simp
      | some loc =>
        cases hp : azPoll pt mp with
        | none => simp
        | some v =>
          obtain ⟨stt, content, errMsg⟩ := v
          by_cases hs : stt == "succeeded" <;> simp [hs]
    | clientErr msg => simp
    | exc msg => simp

/-- Failure encoding of the Gemini `extract` loop, all loop states. -/
theorem geminiAux_failure_encoding (tr : Nat → GemResp) (mr tmo : Nat) :
    ∀ attempt rem,
      ((geminiExtractAux tr mr tmo attempt rem).success = false
        ↔ (geminiExtractAux tr mr tmo attempt rem).error_message ≠ none) := by
  intro attempt rem
  induction rem generalizing attempt with
  | zero => simp [geminiExtractAux]
  | succ r ih =>
    simp only [geminiExtractAux]
    cases tr attempt with
    | ok parse =>
      cases parse with
      | valid d => simp
      | invalid msg =>
        by_cases ha : attempt ≤ mr
        · simpa [ha] using ih (attempt + 1)
        · simp [ha]
    | timeoutExc => simp
    | exc msg => by_cases hr : isRateLimitMsg msg <;> simp [hr]

/-- **C6.** Each of the three adapter `extract` operations is a total function
of its response traces (failures never escape as exceptions), and the result
encodes failure exactly as `success = false` with a non-null error message. -/
theorem extract_failure_is_encoded :
    (∀ (s : DlSubmitResp) (p : Nat → DlPollResp) (mp pi : Nat),
      (datalabExtract s p mp pi).success = false
        ↔ (datalabExtract s p mp pi).error_message ≠ none) ∧
    (∀ (st : Nat → AzSubmitResp) (pt : Nat → AzPollResp) (mr rd mp : Nat),
      (azureExtract st pt mr rd mp).result.success = false
        ↔ (azureExtract st pt mr rd mp).result.error_message ≠ none) ∧
    (∀ (tr : Nat → GemResp) (mr tmo : Nat),
      (geminiExtract tr mr tmo).success = false
        ↔ (geminiExtract tr mr tmo).error_message ≠ none) := by
  refine ⟨fun s p mp pi => ?_, fun st pt mr rd mp => ?_, fun tr mr tmo => ?_⟩
  · unfold datalabExtract
    split <;> simp
  · exact azureAux_failure_encoding st pt mr rd mp _ _ _
  · exact geminiAux_failure_encoding tr mr tmo _ _

/-! ## Submission 429 retry behaviour (C7) -/

/-- **C7 counterexample.** A first 429 on the Datalab submission immediately
yields the rate-limit failure result — no retry — even though the remote
would succeed from then on; the Azure adapter recovers from the analogous
trace with one retry. -/
theorem datalab_submission_429_counterexample :
    (datalabExtract (.rate429 "busy")
        (fun _ => .status "complete" none ⟨some "md", .parses []⟩) 100 3).success
      = false ∧
    (datalabExtract (.rate429 "busy")
        (fun _ => .status "complete" none ⟨some "md", .parses []⟩) 100 3).error_message
      = some ("Rate limit exceeded: " ++ ("Rate limit exceeded: " ++ "busy")) ∧
    (azureExtract (fun n => if n ≤ 1 then .s429 else .accepted (some "op"))
        (fun _ => .res "succeeded" "text" none) 3 5 60).result.success = true :=
  ⟨rfl, rfl, rfl⟩

/-- The Azure submission loop on an all-429 trace: every retry is consumed
with linearly growing sleeps, then the rate-limit failure is returned. -/
theorem azureAux_all429 (pt : Nat → AzPollResp) (rd mp mr : Nat) :
    ∀ rem calls waits, 1 ≤ rem → calls + rem = mr + 1 →
      azureExtractAux (fun _ => .s429) pt mr rd mp rem calls waits
        = ⟨⟨"", false, some ("Rate limit exceeded after " ++ toString mr
              ++ " retries")⟩,
           mr + 1, waits ++ (List.range' (calls + 1) (rem - 1)).map (rd * ·)⟩ := by
  intro rem
  induction rem with
  | zero => intro calls waits h1 _; omega
  | succ r ih =>
    intro calls waits _ h2
    simp only [azureExtractAux]
    rcases Nat.eq_zero_or_pos r with hr | hr
    · subst hr
      have hc : calls = mr := by omega
      have hrc : ¬ (mr + 1 - (0 + 1) + 1 ≤ mr) := by omega
      rw [if_neg hrc]
      simp [hc]
    · have hrc : mr + 1 - (r + 1) + 1 ≤ mr := by omega
      have hcalls : mr + 1 - (r + 1) + 1 = calls + 1 := by omega
      rw [if_pos hrc, hcalls, ih (calls + 1) (waits ++ [rd * (calls + 1)])
        (by omega) (by omega)]
      have hrange : List.range' (calls + 1) r
          = (calls + 1) :: List.range' (calls + 2) (r - 1) := by
        cases r with
        | zero => omega
        | succ r' => simp [List.range'_succ]
      simp [hrange]

/-- The Azure submission loop on a trace of `k` 429s followed by acceptance:
each of the `k` retries sleeps `retry_delay * retry_count`, then the
(k+1)-th submission goes through and polling decides the result. -/
theorem azureAux_429run (pt : Nat → AzPollResp) (rd mp mr k : Nat)
    (op content : String) (e : Option String)
    (hpoll : azPoll pt mp = some ("succeeded", content, e)) :
    ∀ rem calls waits, calls + rem = mr + 1 → calls ≤ k → k ≤ mr →
      azureExtractAux (fun n => if n ≤ k then .s429 else .accepted (some op))
          pt mr rd mp rem calls waits
        = ⟨⟨content, true, none⟩, k + 1,
           waits ++ (List.range' (calls + 1) (k - calls)).map (rd * ·)⟩ := by
  intro rem
  induction rem with
  | zero => intro calls waits h1 h2 h3; omega
  | succ r ih =>
    intro calls waits h1 h2 h3
    simp only [azureExtractAux]
    by_cases hk : calls + 1 ≤ k
    · rw [if_pos hk]
      have hrc : mr + 1 - (r + 1) + 1 ≤ mr := by omega
      have hcalls : mr + 1 - (r + 1) + 1 = calls + 1 := by omega
      rw [if_pos hrc, hcalls, ih (calls + 1) (waits ++ [rd * (calls + 1)])
        (by omega) hk h3]
      have hrange : List.range' (calls + 1) (k - calls)
          = (calls + 1) :: List.range' (calls + 2) (k - (calls + 1)) := by
        have : k - calls = (k - (calls + 1)) + 1 := by omega
        rw [this, List.range'_succ]
      simp [hrange]
    · have hc : calls = k := by omega
      rw [if_neg (by omega)]
      subst hc
      rw [hpoll]
      simp

/-- **C7 amended.** The Azure adapter retries a 429 submission response up to
`max_retries` times with linearly increasing sleeps before returning a
rate-limit failure, and a success within the budget recovers; the Datalab
adapter performs no submission retry — its first 429 immediately produces the
rate-limit failure result, whatever the rest of the remote would answer. -/
theorem submission_429_retry_behaviour :
    (∀ (text : String) (p : Nat → DlPollResp) (mp pi : Nat),
      datalabExtract (.rate429 text) p mp pi
        = ⟨"", [], false,
           some ("Rate limit exceeded: " ++ ("Rate limit exceeded: " ++ text))⟩) ∧
    (∀ (pt : Nat → AzPollResp) (mr rd mp : Nat),
      azureExtract (fun _ => .s429) pt mr rd mp
        = ⟨⟨"", false, some ("Rate limit exceeded after " ++ toString mr
              ++ " retries")⟩,
           mr + 1, (List.range' 1 mr).map (rd * ·)⟩) ∧
    (∀ (pt : Nat → AzPollResp) (mr rd mp k : Nat) (op content : String)
        (e : Option String), k ≤ mr →
      azPoll pt mp = some ("succeeded", content, e) →
      azureExtract (fun n => if n ≤ k then .s429 else .accepted (some op))
          pt mr rd mp
        = ⟨⟨content, true, none⟩, k + 1, (List.range' 1 k).map (rd * ·)⟩) := by
  refine ⟨fun text p mp pi => rfl, fun pt mr rd mp => ?_,
    fun pt mr rd mp k op content e hk hpoll => ?_⟩
  · have h := azureAux_all429 pt rd mp mr (mr + 1) 0 [] (by omega) (by omega)
    simpa [azureExtract] using h
  · have h := azureAux_429run pt rd mp mr k op content e hpoll (mr + 1) 0 []
      (by omega) (by omega) hk
    simpa [azureExtract] using h

/-- Witness for the amended C7 claim at `max_retries = 3`, `retry_delay = 5`:
two 429s, then acceptance and a successful poll. -/
theorem submission_429_retry_behaviour_witness :
    azureExtract (fun n => if n ≤ 2 then .s429 else .accepted (some "op"))
        (fun _ => .res "succeeded" "text" none) 3 5 60
      = ⟨⟨"text", true, none⟩, 3, [5, 10]⟩ := by
  have h := submission_429_retry_behaviour.2.2
    (fun _ => .res "succeeded" "text" none) 3 5 60 2 "op" "text" none
    (by omega) rfl
  simpa using h

/-! ## Polling loop behaviour (C8) -/

/-- A poll response on which the Datalab loop keeps polling: a 429, a
transient HTTP/network error strictly below the attempt budget, or a
non-terminal status string. -/
def dlNonTerminal (mp : Nat) (t : Nat → DlPollResp) (n : Nat) : Prop :=
  t n = .rate429
    ∨ (∃ m, (t n = .httpErr m ∨ t n = .netErr m) ∧ n < mp)
    ∨ ∃ s e p, t n = .status s e p ∧ s ≠ "complete" ∧ s ≠ "failed"

/-- A poll response on which the Azure loop keeps polling. -/
def azNonTerminal (t : Nat → AzPollResp) (n : Nat) : Prop :=
  (∃ c, t n = .non200 c) ∨ (∃ m, t n = .exc m)
    ∨ ∃ s c e, t n = .res s c e ∧ s ≠ "succeeded" ∧ s ≠ "failed"

/-- The Datalab poll loop reads only the attempts of its window: two traces
agreeing on `[attempt, attempt + remaining)` poll identically. -/
theorem dlPollAux_window (t t' : Nat → DlPollResp) (mp pi : Nat) :
    ∀ rem attempt, (∀ n, attempt ≤ n → n < attempt + rem → t n = t' n) →
      dlPollAux t mp pi attempt rem = dlPollAux t' mp pi attempt rem := by
  intro rem
  induction rem with
  | zero => intro attempt _; rfl
  | succ r ih =>
    intro attempt h
    have ht : t attempt = t' attempt := h attempt le_rfl (by omega)
    have hrest : ∀ n, attempt + 1 ≤ n → n < (attempt + 1) + r → t n = t' n :=
      fun n h1 h2 => h n (by omega) (by omega)
    simp only [dlPollAux, ht]
    cases t' attempt with
    | rate429 => exact ih (attempt + 1) hrest
    | httpErr m =>
      by_cases hmp : mp ≤ attempt
      · simp [hmp]
      · simp only [hmp, if_false]
        exact ih (attempt + 1) hrest
    | netErr m =>
      by_cases hmp : mp ≤ attempt
      · simp [hmp]
      · simp only [hmp, if_false]
        exact ih (attempt + 1) hrest
    | status s e p =>
      by_cases hc : s == "complete"
      · simp [hc]
      · by_cases hf : s == "failed"
        · simp [hc, hf]
        · simp only [hc, hf, Bool.false_eq_true, if_false]
          exact ih (attempt + 1) hrest

/-- The Azure poll loop reads only the attempts of its window. -/
theorem azPollAux_window (t t' : Nat → AzPollResp) :
    ∀ rem n, (∀ m, n ≤ m → m < n + rem → t m = t' m) →
      azPollAux t n rem = azPollAux t' n rem := by
  intro rem
  induction rem with
  | zero => intro n _; rfl
  | succ r ih =>
    intro n h
    have ht : t n = t' n := h n le_rfl (by omega)
    have hrest : ∀ m, n + 1 ≤ m → m < (n + 1) + r → t m = t' m :=
      fun m h1 h2 => h m (by omega) (by omega)
    simp only [azPollAux, ht]
    cases t' n with
    | non200 c => exact ih (n + 1) hrest
    | exc m => exact ih (n + 1) hrest
    | res s c e =>
      by_cases hs : (s == "succeeded" || s == "failed") = true
      · simp [hs]
      · simp only [hs, Bool.false_eq_true, if_false]
        exact ih (n + 1) hrest

/-- Exhausting the Datalab poll budget on non-terminal responses raises the
timeout exception. -/
theorem dlPollAux_exhaust (t : Nat → DlPollResp) (mp pi : Nat)
    (hnt : ∀ n, 1 ≤ n → n ≤ mp → dlNonTerminal mp t n) :
    ∀ rem attempt, attempt + rem = mp + 1 → 1 ≤ attempt →
      dlPollAux t mp pi attempt rem
        = .error (.timeoutExc ("Polling timeout after " ++ toString mp
            ++ " attempts (" ++ toString (mp * pi) ++ " seconds)")) := by
  intro rem
  induction rem with
  | zero => intro attempt _ _; rfl
  | succ r ih =>
    intro attempt h1 h2
    rcases hnt attempt h2 (by omega) with h | ⟨m, hm, hlt⟩ | ⟨s, e, p, hs, hc, hf⟩
    · simp only [dlPollAux, h]
      exact ih (attempt + 1) (by omega) (by omega)
    · rcases hm with hm | hm <;> simp only [dlPollAux, hm] <;>
        rw [if_neg (by omega)] <;> exact ih (attempt + 1) (by omega) (by omega)
    · have hc' : (s == "complete") = false := by simpa using hc
      have hf' : (s == "failed") = false := by simpa using hf
      simp only [dlPollAux, hs, hc', hf', Bool.false_eq_true, if_false]
      exact ih (attempt + 1) (by omega) (by omega)

/-- Exhausting the Azure poll budget on non-terminal responses returns
`None`. -/
theorem azPollAux_exhaust (t : Nat → AzPollResp) (mp : Nat)
    (hnt : ∀ n, n < mp → azNonTerminal t n) :
    ∀ rem n, n + rem = mp → azPollAux t n rem = none := by
  intro rem
  induction rem with
  | zero => intro n _; rfl
  | succ r ih =>
    intro n h1
    rcases hnt n (by omega) with ⟨c, hc⟩ | ⟨m, hm⟩ | ⟨s, c, e, hs, h1', h2'⟩
    · simp only [azPollAux, hc]
      exact ih (n + 1) (by omega)
    · simp only [azPollAux, hm]
      exact ih (n + 1) (by omega)
    · have hb : (s == "succeeded" || s == "failed") = false := by
        simp [h1', h2']
      simp only [azPollAux, hs, hb, Bool.false_eq_true, if_false]
      exact ih (n + 1) (by omega)

/-- **C8 counterexample.** Datalab, `max_polls = 2`: a pending poll then an
HTTP error on the final attempt.  The budget is exhausted but the extraction
does not return the timeout failure — the final transient error aborts with a
`Polling failed` message instead of continuing into the timeout. -/
theorem datalab_poll_final_http_error_counterexample :
    (datalabExtract (.ok (some "id"))
        (fun n => if n == 1 then .status "processing" none ⟨none, .missingKey⟩
          else .httpErr "boom") 2 5).error_message
      = some "Polling failed: boom" ∧
    some "Polling failed: boom"
      ≠ some ("Timeout after " ++ toString 2 ++ " polls: "
          ++ ("Polling timeout after " ++ toString 2 ++ " attempts ("
            ++ toString (2 * 5) ++ " seconds)")) ∧
    (datalabExtract (.ok (some "id"))
        (fun n => if n == 1 then .status "processing" none ⟨none, .missingKey⟩
          else .httpErr "boom") 2 5).success = false :=
  ⟨rfl, by decide, rfl⟩

/-- **C8 amended.** Both polling loops are bounded and total: they read at
most `max_polls` trace entries; 429s (Datalab), transient HTTP/network errors
below the last attempt, and non-terminal status values continue; exactly the
two terminal states stop early; exhausting the budget on non-terminal
responses yields the timeout failure for the whole extraction — with one
Datalab exception: an HTTP or network error on the final attempt aborts with
a `Polling failed`/`Network error` result instead of the timeout. -/
theorem polling_loop_behaviour :
    (∀ (t t' : Nat → DlPollResp) (mp pi : Nat),
      (∀ n, 1 ≤ n → n ≤ mp → t n = t' n) →
      dlPoll t mp pi = dlPoll t' mp pi) ∧
    (∀ (t t' : Nat → AzPollResp) (mp : Nat),
      (∀ n, n < mp → t n = t' n) → azPoll t mp = azPoll t' mp) ∧
    (∀ (t : Nat → DlPollResp) (mp pi a r : Nat),
      (t a = .rate429 →
        dlPollAux t mp pi a (r + 1) = dlPollAux t mp pi (a + 1) r) ∧
      (∀ s e p, t a = .status s e p → s ≠ "complete" → s ≠ "failed" →
        dlPollAux t mp pi a (r + 1) = dlPollAux t mp pi (a + 1) r) ∧
      (∀ m, (t a = .httpErr m ∨ t a = .netErr m) → a < mp →
        dlPollAux t mp pi a (r + 1) = dlPollAux t mp pi (a + 1) r) ∧
      (∀ e p, t a = .status "complete" e p →
        dlPollAux t mp pi a (r + 1) = .ok p) ∧
      (∀ e p, t a = .status "failed" e p →
        dlPollAux t mp pi a (r + 1)
          = .error (.other ("Datalab processing failed: "
              ++ e.getD "Unknown error")))) ∧
    (∀ (t : Nat → AzPollResp) (n r : Nat),
      (azNonTerminal t n → azPollAux t n (r + 1) = azPollAux t (n + 1) r) ∧
      (∀ s c e, t n = .res s c e → (s = "succeeded" ∨ s = "failed") →
        azPollAux t n (r + 1) = some (s, c, e))) ∧
    (∀ (t : Nat → DlPollResp) (rid : String) (mp pi : Nat),
      (∀ n, 1 ≤ n → n ≤ mp → dlNonTerminal mp t n) →
      datalabExtract (.ok (some rid)) t mp pi
        = ⟨"", [], false,
           some ("Timeout after " ++ toString mp ++ " polls: "
             ++ ("Polling timeout after " ++ toString mp ++ " attempts ("
               ++ toString (mp * pi) ++ " seconds)"))⟩) ∧
    (∀ (st : Nat → AzSubmitResp) (pt : Nat → AzPollResp) (op : String)
        (mr rd mp : Nat),
      st 1 = .accepted (some op) → (∀ n, n < mp → azNonTerminal pt n) →
      azureExtract st pt mr rd mp
        = ⟨⟨"", false, some ("Timeout after " ++ toString mp ++ " polls")⟩,
           1, []⟩) ∧
    (∀ (t : Nat → DlPollResp) (mp pi r : Nat),
      (∀ m, t mp = .httpErr m →
        dlPollAux t mp pi mp (r + 1) = .error (.other ("Polling failed: " ++ m)))
      ∧ (∀ m, t mp = .netErr m →
        dlPollAux t mp pi mp (r + 1)
          = .error (.other ("Network error: " ++ m)))) := by
  refine ⟨?_, ?_, ?_, ?_, ?_, ?_, ?_⟩
  · intro t t' mp pi h
    exact dlPollAux_window t t' mp pi mp 1 (fun n h1 h2 => h n h1 (by omega))
  · intro t t' mp h
    exact azPollAux_window t t' mp 0 (fun m h1 h2 => h m (by omega))
  · intro t mp pi a r
    refine ⟨fun h => by simp only [dlPollAux, h], ?_, ?_, ?_, ?_⟩
    · intro s e p hs hc hf
      have hc' : (s == "complete") = false := by simpa using hc
      have hf' : (s == "failed") = false := by simpa using hf
      simp only [dlPollAux, hs, hc', hf', Bool.false_eq_true, if_false]
    · intro m hm hlt
      rcases hm with hm | hm <;> simp only [dlPollAux, hm] <;>
        rw [if_neg (by omega)]
    · intro e p hs
      simp [dlPollAux, hs]
    · intro e p hs
      simp [dlPollAux, hs]
  · intro t n r
    constructor
    · intro hnt
      rcases hnt with ⟨c, hc⟩ | ⟨m, hm⟩ | ⟨s, c, e, hs, h1', h2'⟩
      · simp only [azPollAux, hc]
      · simp only [azPollAux, hm]
      · have hb : (s == "succeeded" || s == "failed") = false := by
          simp [h1', h2']
        simp only [azPollAux, hs, hb, Bool.false_eq_true, if_false]
    · intro s c e hs hterm
      have hb : (s == "succeeded" || s == "failed") = true := by
        rcases hterm with h | h <;> simp [h]
      simp only [azPollAux, hs, hb, if_true]
  · intro t rid mp pi hnt
    have hp : dlPoll t mp pi
        = .error (.timeoutExc ("Polling timeout after " ++ toString mp
            ++ " attempts (" ++ toString (mp * pi) ++ " seconds)")) :=
      dlPollAux_exhaust t mp pi hnt mp 1 (by omega) (by omega)
    unfold datalabExtract
    rw [show (dlSubmit (.ok (some rid)) >>= fun _ => dlPoll t mp pi)
        = dlPoll t mp pi from rfl, hp]
  · intro st pt op mr rd mp h1 hnt
    have hp : azPoll pt mp = none :=
      azPollAux_exhaust pt mp hnt mp 0 (by omega)
    unfold azureExtract azureExtractAux
    rw [h1, hp]
  · intro t mp pi r
    constructor
    · intro m hm
      simp only [dlPollAux, hm]
      rw [if_pos le_rfl]
    · intro m hm
      simp only [dlPollAux, hm]
      rw [if_pos le_rfl]

/-- Witness for the amended C8 claim: every clause instantiated on a concrete
two-attempt budget with its hypotheses discharged. -/
theorem polling_loop_behaviour_witness :
    dlPoll (fun _ => .rate429) 2 5 = dlPoll (fun _ => .rate429) 2 5 ∧
    azPoll (fun _ => .non200 500) 2 = azPoll (fun _ => .non200 500) 2 ∧
    dlPollAux (fun _ => .rate429) 2 5 1 1 = dlPollAux (fun _ => .rate429) 2 5 2 0 ∧
    dlPollAux (fun _ => .status "pending" none ⟨none, .missingKey⟩) 2 5 1 1
      = dlPollAux (fun _ => .status "pending" none ⟨none, .missingKey⟩) 2 5 2 0 ∧
    dlPollAux (fun _ => .httpErr "e") 2 5 1 1
      = dlPollAux (fun _ => .httpErr "e") 2 5 2 0 ∧
    dlPollAux (fun _ => .status "complete" none ⟨none, .missingKey⟩) 2 5 1 1
      = .ok ⟨none, .missingKey⟩ ∧
    dlPollAux (fun _ => .status "failed" (some "err") ⟨none, .missingKey⟩) 2 5 1 1
      = .error (.other ("Datalab processing failed: "
          ++ (some "err").getD "Unknown error")) ∧
    azPollAux (fun _ => .exc "x") 0 3 = azPollAux (fun _ => .exc "x") 1 2 ∧
    azPollAux (fun _ => .res "succeeded" "c" none) 0 3
      = some ("succeeded", "c", none) ∧
    datalabExtract (.ok (some "id"))
        (fun _ => .status "pending" none ⟨none, .missingKey⟩) 2 5
      = ⟨"", [], false,
         some ("Timeout after " ++ toString 2 ++ " polls: "
           ++ ("Polling timeout after " ++ toString 2 ++ " attempts ("
             ++ toString (2 * 5) ++ " seconds)"))⟩ ∧
    azureExtract (fun _ => .accepted (some "op")) (fun _ => .non200 500) 3 5 2
      = ⟨⟨"", false, some ("Timeout after " ++ toString 2 ++ " polls")⟩,
         1, []⟩ ∧
    dlPollAux (fun _ => .httpErr "boom") 2 5 2 1
      = .error (.other ("Polling failed: " ++ "boom")) := by
  refine ⟨polling_loop_behaviour.1 _ _ 2 5 (fun n _ _ => rfl),
    polling_loop_behaviour.2.1 _ _ 2 (fun n _ => rfl),
    (polling_loop_behaviour.2.2.1 (fun _ => .rate429) 2 5 1 0).1 rfl,
    (polling_loop_behaviour.2.2.1 _ 2 5 1 0).2.1 "pending" none
      ⟨none, .missingKey⟩ rfl (by decide) (by decide),
    (polling_loop_behaviour.2.2.1 _ 2 5 1 0).2.2.1 "e" (Or.inl rfl) (by omega),
    (polling_loop_behaviour.2.2.1 _ 2 5 1 0).2.2.2.1 none
      ⟨none, .missingKey⟩ rfl,
    (polling_loop_behaviour.2.2.1 _ 2 5 1 0).2.2.2.2 (some "err")
      ⟨none, .missingKey⟩ rfl,
    (polling_loop_behaviour.2.2.2.1 _ 0 2).1 (Or.inr (Or.inl ⟨"x", rfl⟩)),
    (polling_loop_behaviour.2.2.2.1 _ 0 2).2 "succeeded" "c" none rfl
      (Or.inl rfl),
    polling_loop_behaviour.2.2.2.2.1 _ "id" 2 5 (fun n _ _ =>
      Or.inr (Or.inr ⟨"pending", none, ⟨none, .missingKey⟩, rfl,
        by decide, by decide⟩)),
    polling_loop_behaviour.2.2.2.2.2.1 _ _ "op" 3 5 2 rfl
      (fun n _ => Or.inl ⟨500, rfl⟩),
    (polling_loop_behaviour.2.2.2.2.2.2 _ 2 5 0).1 "boom" rfl⟩

/-! ## Properties of `normalize` (C4) -/

/-- `Char.ofNat` on a scalar value below the surrogate range. -/
theorem char_toNat_ofNat {n : Nat} (h : n < 55296) :
    (Char.ofNat n).toNat = n := by
  rw [Char.ofNat, dif_pos (Or.inl h)]
  rfl

/-- ASCII case-folding is idempotent. -/
theorem pyLower_idem (c : Char) : pyLower (pyLower c) = pyLower c := by
  unfold pyLower
  by_cases h : 65 ≤ c.toNat ∧ c.toNat ≤ 90
  · rw [if_pos h]
    have hv : (Char.ofNat (c.toNat + 32)).toNat = c.toNat + 32 :=
      char_toNat_ofNat (by omega)
    rw [if_neg (by omega)]
  · rw [if_neg h, if_neg h]

/-- Scalar-value characterisation of equality of characters. -/
theorem char_eq_of_toNat_eq {c d : Char} (h : c.toNat = d.toNat) : c = d :=
  Char.eq_of_val_eq (UInt32.toNat.inj h)

/-- Scalar-value characterisation of the `pySpace` class. -/
theorem pySpace_iff_toNat (c : Char) :
    pySpace c = true ↔ (c.toNat = 32 ∨ c.toNat = 9 ∨ c.toNat = 10
      ∨ c.toNat = 13 ∨ c.toNat = 11 ∨ c.toNat = 12) := by
  unfold pySpace
  simp only [Bool.or_eq_true, beq_iff_eq]
  constructor
  · intro h
    rcases h with ((((h | h) | h) | h) | h) | h <;> subst h <;> decide
  · intro h
    rcases h with h | h | h | h | h | h
    · exact Or.inl (Or.inl (Or.inl (Or.inl (Or.inl
        (char_eq_of_toNat_eq (d := ' ') h)))))
    · exact Or.inl (Or.inl (Or.inl (Or.inl (Or.inr
        (char_eq_of_toNat_eq (d := '\t') h)))))
    · exact Or.inl (Or.inl (Or.inl (Or.inr
        (char_eq_of_toNat_eq (d := '\n') h))))
    · exact Or.inl (Or.inl (Or.inr (char_eq_of_toNat_eq (d := '\r') h)))
    · exact Or.inl (Or.inr (char_eq_of_toNat_eq (d := '\x0b') h))
    · exact Or.inr (char_eq_of_toNat_eq (d := '\x0c') h)

/-- Printable non-space characters are not whitespace. -/
theorem pySpace_eq_false_of_toNat {c : Char} (h1 : 33 ≤ c.toNat) :
    pySpace c = false := by
  rcases hb : pySpace c with _ | _
  · rfl
  · exact absurd ((pySpace_iff_toNat c).mp hb) (by omega)

/-- Case-folding does not create or destroy whitespace. -/
theorem pySpace_pyLower (c : Char) : pySpace (pyLower c) = pySpace c := by
  unfold pyLower
  by_cases h : 65 ≤ c.toNat ∧ c.toNat ≤ 90
  · rw [if_pos h]
    have hv : (Char.ofNat (c.toNat + 32)).toNat = c.toNat + 32 :=
      char_toNat_ofNat (by omega)
    rw [pySpace_eq_false_of_toNat (by omega),
      pySpace_eq_false_of_toNat (c := c) (by omega)]
  · rw [if_neg h]

/-- A list whose head fails the predicate is unchanged by `dropWhile`. -/
theorem dropWhile_eq_self_of_head {α : Type} (p : α → Bool) (l : List α)
    (h : ∀ c, l.head? = some c → p c = false) : l.dropWhile p = l := by
  cases l with
  | nil => rfl
  | cons c r =>
    rw [List.dropWhile_cons, if_neg]
    simp [h c rfl]

/-- The head of a `dropWhile` result fails the predicate. -/
theorem head_dropWhile_false {α : Type} (p : α → Bool) (l : List α) :
    ∀ c, (l.dropWhile p).head? = some c → p c = false := by
  induction l with
  | nil => intro c h; cases h
  | cons d r ih =>
    intro c h
    rw [List.dropWhile_cons] at h
    by_cases hd : p d
    · exact ih c (by simpa [hd] using h)
    · simp only [hd, Bool.false_eq_true, if_false, List.head?_cons,
        Option.some.injEq] at h
      subst h
      simpa using hd

/-- `dropEndWhile` yields a prefix. -/
theorem dropEndWhile_isPrefix (p : Char → Bool) (l : PyStr) :
    dropEndWhile p l <+: l := by
  have h := List.dropWhile_suffix (l := l.reverse) p
  have := List.reverse_prefix.mpr h
  simpa [dropEndWhile] using this

/-- The head of a nonempty prefix agrees with the head of the whole list. -/
theorem head_of_prefix {α : Type} {l₁ l₂ : List α} (h : l₁ <+: l₂)
    (hne : l₁ ≠ []) : l₂.head? = l₁.head? := by
  obtain ⟨t, rfl⟩ := h
  cases l₁ with
  | nil => exact absurd rfl hne
  | cons c r => rfl

/-- Membership in `pyStrip` output. -/
theorem mem_pyStrip {c : Char} {l : PyStr} (h : c ∈ pyStrip l) : c ∈ l := by
  unfold pyStrip at h
  rw [List.mem_reverse] at h
  have h2 := (List.dropWhile_sublist pySpace).subset h
  rw [List.mem_reverse] at h2
  exact (List.dropWhile_sublist pySpace).subset h2

/-- Membership in `dropEndWhile` output. -/
theorem mem_dropEndWhile {p : Char → Bool} {c : Char} {l : PyStr}
    (h : c ∈ dropEndWhile p l) : c ∈ l :=
  (dropEndWhile_isPrefix p l).subset h

/-- Characters of the whitespace-collapse output come from the input or are
the emitted single space. -/
theorem mem_collapseWsAux {c : Char} :
    ∀ (f : Bool) (l : PyStr), c ∈ collapseWsAux f l → c ∈ l ∨ c = ' ' := by
  intro f l
  induction l generalizing f with
  | nil => intro h; cases h
  | cons d r ih =>
    intro h
    simp only [collapseWsAux] at h
    by_cases hd : pySpace d
    · rw [if_pos hd] at h
      cases f with
      | true =>
        rcases ih true (by simpa using h) with h' | h'
        · exact Or.inl (List.mem_cons_of_mem _ h')
        · exact Or.inr h'
      | false =>
        simp only [Bool.false_eq_true, if_false, List.mem_cons] at h
        rcases h with h | h
        · exact Or.inr h
        · rcases ih true h with h' | h'
          · exact Or.inl (List.mem_cons_of_mem _ h')
          · exact Or.inr h'
    · rw [if_neg hd] at h
      simp only [List.mem_cons] at h
      rcases h with h | h
      · exact Or.inl (h ▸ List.mem_cons_self _ _)
      · rcases ih false h with h' | h'
        · exact Or.inl (List.mem_cons_of_mem _ h')
        · exact Or.inr h'

/-- Every whitespace character the collapse emits is the single space. -/
theorem collapseWsAux_space_eq :
    ∀ (f : Bool) (l : PyStr) (c : Char), c ∈ collapseWsAux f l →
      pySpace c = true → c = ' ' := by
  intro f l
  induction l generalizing f with
  | nil => intro c h; cases h
  | cons d r ih =>
    intro c h hsp
    simp only [collapseWsAux] at h
    by_cases hd : pySpace d
    · rw [if_pos hd] at h
      cases f with
      | true => exact ih true c (by simpa using h) hsp
      | false =>
        simp only [Bool.false_eq_true, if_false, List.mem_cons] at h
        rcases h with h | h
        · exact h
        · exact ih true c h hsp
    · rw [if_neg hd] at h
      simp only [List.mem_cons] at h
      rcases h with h | h
      · exact absurd (h ▸ hsp) (by simp [hd])
      · exact ih false c h hsp

/-- In run-swallowing mode the collapse never emits a leading whitespace. -/
theorem head_collapseWsAux_true :
    ∀ (l : PyStr) (c : Char), (collapseWsAux true l).head? = some c →
      pySpace c = false := by
  intro l
  induction l with
  | nil => intro c h; cases h
  | cons d r ih =>
    intro c h
    simp only [collapseWsAux] at h
    by_cases hd : pySpace d
    · rw [if_pos hd] at h
      exact ih c h
    · rw [if_neg hd] at h
      simp only [List.head?_cons, Option.some.injEq] at h
      subst h
      simpa using hd

/-- The collapse output never carries two adjacent whitespace characters. -/
theorem collapseWsAux_chain :
    ∀ (f : Bool) (l : PyStr),
      List.Chain' (fun a b => ¬(pySpace a = true ∧ pySpace b = true))
        (collapseWsAux f l) := by
  intro f l
  induction l generalizing f with
  | nil => simp [collapseWsAux]
  | cons d r ih =>
    simp only [collapseWsAux]
    by_cases hd : pySpace d
    · rw [if_pos hd]
      cases f with
      | true => exact ih true
      | false =>
        simp only [Bool.false_eq_true, if_false]
        rw [List.chain'_cons']
        refine ⟨?_, ih true⟩
        intro y hy
        have := head_collapseWsAux_true r y hy
        simp [this]
    · rw [if_neg hd]
      rw [List.chain'_cons']
      refine ⟨?_, ih false⟩
      intro y _
      simp [hd]

/-- A list already in collapsed shape is a fixpoint of the collapse. -/
theorem collapseWsAux_fixpoint :
    ∀ (l : PyStr),
      (∀ c ∈ l, pySpace c = true → c = ' ') →
      List.Chain' (fun a b => ¬(pySpace a = true ∧ pySpace b = true)) l →
      collapseWsAux false l = l ∧
        ((∀ c, l.head? = some c → pySpace c = false) →
          collapseWsAux true l = l) := by
  intro l
  induction l with
  | nil => intro _ _; exact ⟨rfl, fun _ => rfl⟩
  | cons d r ih =>
    intro hw hc
    have hw' : ∀ c ∈ r, pySpace c = true → c = ' ' :=
      fun c hcm => hw c (List.mem_cons_of_mem _ hcm)
    have hc' : List.Chain' (fun a b => ¬(pySpace a = true ∧ pySpace b = true))
        r := hc.tail
    obtain ⟨ihf, iht⟩ := ih hw' hc'
    by_cases hd : pySpace d
    · have hd' : d = ' ' := hw d (List.mem_cons_self _ _) hd
      have hrhead : ∀ c, r.head? = some c → pySpace c = false := by
        intro c hch
        have hrel := (List.chain'_cons'.mp hc).1 c (by simp [hch])
        rcases hb : pySpace c with _ | _
        · rfl
        · exact absurd ⟨hd, hb⟩ hrel
      constructor
      · simp only [collapseWsAux, if_pos hd, Bool.false_eq_true, if_false]
        rw [iht hrhead, hd']
      · intro hhead
        have := hhead d rfl
        simp [this] at hd
    · constructor
      · simp only [collapseWsAux, if_neg hd]
        rw [ihf]
      · intro _
        simp only [collapseWsAux, if_neg hd]
        rw [ihf]

/-- `pyStrip` is trailing-trim after leading-trim. -/
theorem pyStrip_eq (l : PyStr) :
    pyStrip l = dropEndWhile pySpace (l.dropWhile pySpace) := rfl

/-- The head of a stripped string is not whitespace. -/
theorem head_pyStrip (l : PyStr) :
    ∀ c, (pyStrip l).head? = some c → pySpace c = false := by
  intro c h
  rw [pyStrip_eq] at h
  have hpre := dropEndWhile_isPrefix pySpace (l.dropWhile pySpace)
  have hne : dropEndWhile pySpace (l.dropWhile pySpace) ≠ [] := by
    intro he
    rw [he] at h
    cases h
  have hh := head_of_prefix hpre hne
  rw [h] at hh
  exact head_dropWhile_false pySpace l c hh

/-- A collapse whose input has a non-whitespace head keeps that head. -/
theorem head_collapseWsAux_false (l : PyStr)
    (hl : ∀ c, l.head? = some c → pySpace c = false) :
    (collapseWsAux false l).head? = l.head? := by
  cases l with
  | nil => rfl
  | cons d r =>
    have hd := hl d rfl
    simp [collapseWsAux, hd]

/-- A normalized string is a fixpoint of `normalize` as long as it carries no
trailing space (the one shape the trailing-punctuation strip can expose). -/
theorem normalize_fixpoint_of_no_trailing_space (v : Option PyStr) (s : PyStr)
    (hv : normalize v = some s) (hts : s.getLast? ≠ some ' ') :
    normalize (some s) = some s := by
  rcases v with _ | x
  · cases hv
  · simp only [normalize] at hv
    by_cases he : (dropEndWhile pyPunct (collapseWs (pyStrip
        (x.map pyLower)))).isEmpty
    · rw [if_pos he] at hv
      cases hv
    · rw [if_neg he] at hv
      have hs : dropEndWhile pyPunct (collapseWs (pyStrip (x.map pyLower)))
          = s := by injection hv
      have hne : s ≠ [] := by
        intro h0
        rw [hs, h0] at he
        exact he rfl
      -- abbreviations for the three intermediate strings
      have hmem : ∀ c ∈ s, c ∈ x.map pyLower ∨ c = ' ' := by
        intro c hc
        rw [← hs] at hc
        have h1 := mem_dropEndWhile hc
        rcases mem_collapseWsAux false (pyStrip (x.map pyLower)) h1 with h2 | h2
        · exact Or.inl (mem_pyStrip h2)
        · exact Or.inr h2
      have hlower : ∀ c ∈ s, pyLower c = c := by
        intro c hc
        rcases hmem c hc with h1 | h1
        · obtain ⟨d, _, rfl⟩ := List.mem_map.mp h1
          exact pyLower_idem d
        · rw [h1]
          decide
      have hws : ∀ c ∈ s, pySpace c = true → c = ' ' := by
        intro c hc hsp
        rw [← hs] at hc
        exact collapseWsAux_space_eq false _ c (mem_dropEndWhile hc) hsp
      have hchain : List.Chain'
          (fun a b => ¬(pySpace a = true ∧ pySpace b = true)) s := by
        rw [← hs]
        exact List.Chain'.prefix (collapseWsAux_chain false _) (dropEndWhile_isPrefix _ _)
      have hhead : ∀ c, s.head? = some c → pySpace c = false := by
        intro c hc
        have hpre : s <+: collapseWs (pyStrip (x.map pyLower)) := by
          rw [← hs]
          exact dropEndWhile_isPrefix _ _
        have h1 := head_of_prefix hpre hne
        rw [hc] at h1
        have h2 := head_collapseWsAux_false (pyStrip (x.map pyLower))
          (head_pyStrip _)
        simp only [collapseWs] at h1
        rw [h2] at h1
        exact head_pyStrip _ c h1
      have hlast_sp : ∀ c, s.reverse.head? = some c → pySpace c = false := by
        intro c hc
        have hcm : c ∈ s := by
          have : c ∈ s.reverse := by
            cases hr : s.reverse with
            | nil => rw [hr] at hc; cases hc
            | cons e t =>
              rw [hr] at hc
              simp only [List.head?_cons, Option.some.injEq] at hc
              rw [hc]
              exact List.mem_cons_self _ _
          exact List.mem_reverse.mp this
        rcases hb : pySpace c with _ | _
        · rfl
        · have := hws c hcm hb
          rw [this] at hc
          rw [List.head?_reverse] at hc
          exact absurd hc hts
      have hlast_p : ∀ c, s.reverse.head? = some c → pyPunct c = false := by
        intro c hc
        have hrev : s.reverse
            = (collapseWs (pyStrip (x.map pyLower))).reverse.dropWhile
                pyPunct := by
          rw [← hs]
          unfold dropEndWhile
          rw [List.reverse_reverse]
        rw [hrev] at hc
        exact head_dropWhile_false pyPunct _ c hc
      -- the four stages fix s
      have hmap : s.map pyLower = s := by
        rw [List.map_congr_left hlower, List.map_id']
      have hstrip : pyStrip s = s := by
        rw [pyStrip_eq, dropWhile_eq_self_of_head pySpace s hhead]
        unfold dropEndWhile
        rw [dropWhile_eq_self_of_head pySpace s.reverse hlast_sp,
          List.reverse_reverse]
      have hcol : collapseWs s = s := (collapseWsAux_fixpoint s hws hchain).1
      have hpct : dropEndWhile pyPunct s = s := by
        unfold dropEndWhile
        rw [dropWhile_eq_self_of_head pyPunct s.reverse hlast_p,
          List.reverse_reverse]
      simp only [normalize]
      rw [hmap, hstrip, hcol, hpct, if_neg (by simpa using hne)]

/-- **C4 counterexample.** `normalize` is not idempotent: stripping the
trailing punctuation of `"a. ."` exposes a trailing space, and a second
application removes it and then strips further punctuation. -/
theorem normalize_not_idempotent :
    normalize (some "a. .".data) = some "a. ".data ∧
    normalize (normalize (some "a. .".data)) = some "a".data ∧
    normalize (normalize (some "a. .".data)) ≠ normalize (some "a. .".data) :=
  ⟨by decide, by decide, by decide⟩

/-- **C4 amended.** `normalize` maps `None`, empty and whitespace-only input
to `None`, and `normalize (normalize x) = normalize x` holds whenever the
first normalization leaves no trailing space; a trailing space exposed by the
trailing-punctuation strip is the one way idempotence fails. -/
theorem normalize_null_cases_and_conditional_idempotence :
    normalize none = none ∧
    (∀ s : PyStr, (∀ c ∈ s, pySpace c = true) → normalize (some s) = none) ∧
    (∀ (v : Option PyStr) (s : PyStr), normalize v = some s →
      s.getLast? ≠ some ' ' → normalize (normalize v) = normalize v) := by
  refine ⟨rfl, ?_, ?_⟩
  · intro s hws
    simp only [normalize]
    have h1 : pyStrip (s.map pyLower) = [] := by
      have h0 : (s.map pyLower).dropWhile pySpace = [] := by
        rw [List.dropWhile_eq_nil_iff]
        intro c hc
        obtain ⟨d, hd, rfl⟩ := List.mem_map.mp hc
        rw [pySpace_pyLower]
        exact hws d hd
      rw [pyStrip_eq, h0]
      rfl
    rw [h1]
    rfl
  · intro v s hv hts
    rw [hv, normalize_fixpoint_of_no_trailing_space v s hv hts]

/-- Witness for the amended C4 claim: whitespace-only input nulled, and
idempotence at a concrete normalized value. -/
theorem normalize_null_cases_and_conditional_idempotence_witness :
    normalize (some " \t ".data) = none ∧
    normalize (normalize (some "ab".data)) = normalize (some "ab".data) :=
  ⟨normalize_null_cases_and_conditional_idempotence.2.1 " \t ".data
    (by decide),
   normalize_null_cases_and_conditional_idempotence.2.2 (some "ab".data)
    "ab".data (by decide) (by decide)⟩

/-! ## The fuel of `matchTotalF` is innocuous

`find_longest_match` always returns a block inside its window, so the
windows of the recursion of `get_matching_blocks` shrink strictly and
`ahi - alo` fuel always suffices; any fuel at least that large computes the
same total. -/

/-- Soundness of a `find_longest_match` result for a window: either the
initial "no match" value, or a genuine block inside the window. -/
def BestOk (alo ahi blo bhi : Nat) (m : Flm) : Prop :=
  (m.i = alo ∧ m.j = blo ∧ m.size = 0) ∨
  (alo ≤ m.i ∧ blo ≤ m.j ∧ 1 ≤ m.size ∧ m.i + m.size ≤ ahi ∧
    m.j + m.size ≤ bhi)

/-- Soundness of the row dictionary: entry `(j, len)` records a run of
length `len` ending at column `j`, so `len` is bounded by the column offset
and by the number of processed rows. -/
def J2Ok (blo bnd : Nat) (m : List (Nat × Nat)) : Prop :=
  ∀ pr ∈ m, blo ≤ pr.1 ∧ pr.2 ≤ pr.1 + 1 - blo ∧ pr.2 ≤ bnd

theorem runLen_bound {blo bnd : Nat} {m : List (Nat × Nat)}
    (hm : J2Ok blo bnd m) {j : Nat} (hj : blo ≤ j) :
    runLen m j ≤ j + 1 - blo ∧ runLen m j ≤ bnd + 1 := by
  unfold runLen lookupD
  by_cases hj0 : j == 0
  · have : j = 0 := by simpa using hj0
    subst this
    simp only [hj0, if_true]
    omega
  · simp only [hj0, Bool.false_eq_true, if_false]
    cases hf : m.find? (fun p => p.1 == j - 1) with
    | none => dsimp only; omega
    | some pr =>
      have hmem := List.mem_of_find?_eq_some hf
      have hkey' : pr.1 = j - 1 := by simpa using List.find?_some hf
      obtain ⟨h1, h2, h3⟩ := hm pr hmem
      have hjne : j ≠ 0 := by simpa using hj0
      dsimp only
      omega

theorem mem_rowJs {b2j : Char → List Nat} {ch : Char} {blo bhi j : Nat}
    (h : j ∈ rowJs b2j ch blo bhi) : blo ≤ j ∧ j < bhi := by
  unfold rowJs at h
  have := (List.mem_filter.mp h).2
  simpa using this

theorem bestStep_ok {alo ahi blo bhi r bnd : Nat} {m : List (Nat × Nat)}
    (hm : J2Ok blo bnd m) (hra : alo ≤ r) (hrb : r < ahi)
    (hbnd : bnd ≤ r - alo) :
    ∀ (js : List Nat) (best : Flm), (∀ j ∈ js, blo ≤ j ∧ j < bhi) →
      BestOk alo ahi blo bhi best →
      BestOk alo ahi blo bhi (bestStep m r js best) := by
  intro js
  induction js with
  | nil => intro best _ hb; exact hb
  | cons j t ih =>
    intro best hjs hb
    simp only [bestStep, List.foldl_cons]
    have hj := hjs j (List.mem_cons_self _ _)
    have hrl := runLen_bound hm hj.1
    by_cases hlt : best.size < runLen m j
    · refine ih _ (fun j' hj' => hjs j' (List.mem_cons_of_mem _ hj')) ?_
      rw [if_pos hlt]
      right
      dsimp only
      refine ⟨by omega, by omega, by omega, by omega, by omega⟩
    · refine ih _ (fun j' hj' => hjs j' (List.mem_cons_of_mem _ hj')) ?_
      rw [if_neg hlt]
      exact hb

theorem newJ2len_ok {blo bhi bnd : Nat} {m : List (Nat × Nat)}
    (hm : J2Ok blo bnd m) (js : List Nat)
    (hjs : ∀ j ∈ js, blo ≤ j ∧ j < bhi) :
    J2Ok blo (bnd + 1) (newJ2len m js) := by
  intro pr hpr
  unfold newJ2len at hpr
  obtain ⟨j, hj, rfl⟩ := List.mem_map.mp hpr
  have hjm := hjs j hj
  have hrl := runLen_bound hm hjm.1
  exact ⟨by omega, by omega, by omega⟩

theorem flmRows_ok (a : PyStr) (b2j : Char → List Nat)
    (alo ahi blo bhi : Nat) :
    ∀ (n r : Nat) (j2len : List (Nat × Nat)) (best : Flm), alo ≤ r →
      r + n ≤ ahi → J2Ok blo (r - alo) j2len →
      BestOk alo ahi blo bhi best →
      BestOk alo ahi blo bhi
        (flmRows a b2j blo bhi (List.range' r n) j2len best) := by
  intro n
  induction n with
  | zero => intro r j2len best _ _ _ hb; exact hb
  | succ k ih =>
    intro r j2len best hra hrn hm hb
    rw [List.range'_succ]
    simp only [flmRows]
    have hjs : ∀ j ∈ rowJs b2j (a.getD r '\x00') blo bhi,
        blo ≤ j ∧ j < bhi := fun j hj => mem_rowJs hj
    refine ih (r + 1) _ _ (by omega) (by omega) ?_ ?_
    · have := newJ2len_ok hm _ hjs
      intro pr hpr
      obtain ⟨h1, h2, h3⟩ := this pr hpr
      exact ⟨h1, h2, by omega⟩
    · exact bestStep_ok hm hra (by omega) (by omega) _ best hjs hb

theorem extendLeftN_ok (a b : PyStr) (alo ahi blo bhi : Nat) :
    ∀ (fuel : Nat) (best : Flm), BestOk alo ahi blo bhi best →
      BestOk alo ahi blo bhi (extendLeftN a b alo blo fuel best) := by
  intro fuel
  induction fuel with
  | zero => intro best hb; exact hb
  | succ k ih =>
    intro best hb
    simp only [extendLeftN]
    split
    · rename_i hg
      obtain ⟨hg1, hg2, -⟩ := hg
      refine ih _ ?_
      rcases hb with ⟨h1, _, _⟩ | ⟨h1, h2, h3, h4, h5⟩
      · omega
      · right
        dsimp only
        refine ⟨by omega, by omega, by omega, by omega, by omega⟩
    · exact hb

theorem extendRightN_ok (a b : PyStr) (alo ahi blo bhi : Nat) :
    ∀ (fuel : Nat) (best : Flm), BestOk alo ahi blo bhi best →
      BestOk alo ahi blo bhi (extendRightN a b ahi bhi fuel best) := by
  intro fuel
  induction fuel with
  | zero => intro best hb; exact hb
  | succ k ih =>
    intro best hb
    simp only [extendRightN]
    split
    · rename_i hg
      obtain ⟨hg1, hg2, -⟩ := hg
      refine ih _ ?_
      rcases hb with ⟨h1, h2, h3⟩ | ⟨h1, h2, h3, h4, h5⟩
      · right
        dsimp only
        refine ⟨by omega, by omega, by omega, by omega, by omega⟩
      · right
        dsimp only
        refine ⟨by omega, by omega, by omega, by omega, by omega⟩
    · exact hb

theorem findLongestMatch_ok (a b : PyStr) (b2j : Char → List Nat)
    (alo ahi blo bhi : Nat) :
    BestOk alo ahi blo bhi (findLongestMatch a b b2j alo ahi blo bhi) := by
  unfold findLongestMatch
  apply extendRightN_ok
  apply extendLeftN_ok
  rcases le_or_lt alo ahi with hab | hab
  · exact flmRows_ok a b2j alo ahi blo bhi (ahi - alo) alo [] _ le_rfl
      (by omega) (fun pr hpr => by cases hpr) (Or.inl ⟨rfl, rfl, rfl⟩)
  · have h0 : ahi - alo = 0 := by omega
    rw [h0]
    exact Or.inl ⟨rfl, rfl, rfl⟩

theorem matchTotalF_zero_of_empty (a b : PyStr) (b2j : Char → List Nat)
    {alo ahi : Nat} (h : ahi ≤ alo) (blo bhi : Nat) :
    ∀ fuel, matchTotalF a b b2j fuel alo ahi blo bhi = 0 := by
  intro fuel
  cases fuel with
  | zero => rfl
  | succ g =>
    simp only [matchTotalF]
    rcases findLongestMatch_ok a b b2j alo ahi blo bhi with
      ⟨_, _, h0⟩ | ⟨h1, _, h3, h4, _⟩
    · simp [h0]
    · omega

/-- Any fuel at least the window width computes the same match total; in
particular `seqMatchSize`'s choice `a.length` is sufficient. -/
theorem matchTotalF_fuel_irrelevant (a b : PyStr) (b2j : Char → List Nat) :
    ∀ (n f1 f2 alo ahi blo bhi : Nat), ahi - alo ≤ n → ahi - alo ≤ f1 →
      ahi - alo ≤ f2 →
      matchTotalF a b b2j f1 alo ahi blo bhi
        = matchTotalF a b b2j f2 alo ahi blo bhi := by
  intro n
  induction n with
  | zero =>
    intro f1 f2 alo ahi blo bhi h0 _ _
    rw [matchTotalF_zero_of_empty a b b2j (by omega) blo bhi f1,
      matchTotalF_zero_of_empty a b b2j (by omega) blo bhi f2]
  | succ n ih =>
    intro f1 f2 alo ahi blo bhi hn h1 h2
    rcases Nat.eq_zero_or_pos (ahi - alo) with h0 | h0
    · rw [matchTotalF_zero_of_empty a b b2j (by omega) blo bhi f1,
        matchTotalF_zero_of_empty a b b2j (by omega) blo bhi f2]
    · obtain ⟨g1, rfl⟩ : ∃ g, f1 = g + 1 := ⟨f1 - 1, by omega⟩
      obtain ⟨g2, rfl⟩ : ∃ g, f2 = g + 1 := ⟨f2 - 1, by omega⟩
      simp only [matchTotalF]
      rcases hok : findLongestMatch a b b2j alo ahi blo bhi with ⟨i, j, k⟩
      have hbest := findLongestMatch_ok a b b2j alo ahi blo bhi
      rw [hok] at hbest
      rcases hbest with ⟨_, _, h00⟩ | ⟨hi, hj, hsz, hia, hjb⟩
      · have hk0 : k = 0 := h00
        simp [hk0]
      · dsimp only at hi hj hsz hia hjb
        have hkne : k ≠ 0 := by omega
        simp only [beq_iff_eq]
        rw [if_neg hkne, if_neg hkne]
        have hL : (if alo < i ∧ blo < j then
              matchTotalF a b b2j g1 alo i blo j else 0)
            = (if alo < i ∧ blo < j then
              matchTotalF a b b2j g2 alo i blo j else 0) := by
          by_cases hc : alo < i ∧ blo < j
          · rw [if_pos hc, if_pos hc]
            exact ih g1 g2 alo i blo j (by omega) (by omega) (by omega)
          · rw [if_neg hc, if_neg hc]
        have hR : (if i + k < ahi ∧ j + k < bhi then
              matchTotalF a b b2j g1 (i + k) ahi (j + k) bhi else 0)
            = (if i + k < ahi ∧ j + k < bhi then
              matchTotalF a b b2j g2 (i + k) ahi (j + k) bhi else 0) := by
          by_cases hc : i + k < ahi ∧ j + k < bhi
          · rw [if_pos hc, if_pos hc]
            exact ih g1 g2 (i + k) ahi (j + k) bhi (by omega) (by omega)
              (by omega)
          · rw [if_neg hc, if_neg hc]
        rw [hL, hR]

/-! ## Symmetry of `values_match` (C5) -/

/-- On the fuzzy branch, `values_match` is the threshold test on
`SequenceMatcher(None, norm1, norm2).ratio()` — note the argument order. -/
theorem values_match_fuzzy_eq (v1 v2 n1 n2 : PyStr) (ft : ℚ)
    (h1 : normalize (some v1) = some n1) (h2 : normalize (some v2) = some n2)
    (hne : (n1 == n2) = false)
    (hlen : (20 < n1.length || 20 < n2.length) = true) :
    values_match (some v1) (some v2) ft = decide (ft ≤ seqRatio n1 n2) := by
  simp only [values_match, h1, h2, hne, hlen, Bool.false_eq_true, if_false,
    if_true]

set_option maxRecDepth 2000000 in
/-- **C5 counterexample.** `values_match` is not symmetric: on this pair of
normalization-fixed strings (lengths 21 and 24) the `SequenceMatcher` block
matching finds 21 matched characters in one orientation (ratio 42/45) but
only 9 in the other (ratio 18/45), so exactly one direction clears the 0.85
threshold. -/
theorem values_match_not_symmetric :
    values_match (some "aabbaaaaababaaabbabaa".data)
        (some "aaabbabaaaababaababbabaa".data) = true ∧
    values_match (some "aaabbabaaaababaababbabaa".data)
        (some "aabbaaaaababaaabbabaa".data) = false := by
  have hA : normalize (some "aabbaaaaababaaabbabaa".data)
      = some "aabbaaaaababaaabbabaa".data := by decide
  have hB : normalize (some "aaabbabaaaababaababbabaa".data)
      = some "aaabbabaaaababaababbabaa".data := by decide
  have hM1 : seqMatchSize "aabbaaaaababaaabbabaa".data
      "aaabbabaaaababaababbabaa".data = 21 := by decide
  have hM2 : seqMatchSize "aaabbabaaaababaababbabaa".data
      "aabbaaaaababaaabbabaa".data = 9 := by decide
  have hlA : ("aabbaaaaababaaabbabaa".data).length = 21 := by decide
  have hlB : ("aaabbabaaaababaababbabaa".data).length = 24 := by decide
  have hr1 : seqRatio "aabbaaaaababaaabbabaa".data
      "aaabbabaaaababaababbabaa".data = 14/15 := by
    unfold seqRatio
    rw [hM1, hlA, hlB]
    norm_num
  have hr2 : seqRatio "aaabbabaaaababaababbabaa".data
      "aabbaaaaababaaabbabaa".data = 2/5 := by
    unfold seqRatio
    rw [hM2, hlA, hlB]
    norm_num
  constructor
  · rw [values_match_fuzzy_eq _ _ _ _ _ hA hB (by decide) (by decide), hr1]
    rw [decide_eq_true_eq]
    norm_num
  · rw [values_match_fuzzy_eq _ _ _ _ _ hB hA (by decide) (by decide), hr2]
    rw [decide_eq_false_iff_not]
    norm_num

/-- **C5 amended.** `values_match` is reflexive, and it is symmetric whenever
the comparison is not decided by the fuzzy branch (both `None`, equal
normalizations, a `None` on either side, or both normalized strings of length
≤ 20); the fuzzy branch hands the two strings to `SequenceMatcher` in
argument order, whose block matching is not symmetric. -/
theorem values_match_reflexive_and_symmetric_outside_fuzzy :
    (∀ a : Option PyStr, values_match a a = true) ∧
    (∀ (a b : Option PyStr),
      (∀ na nb, normalize a = some na → normalize b = some nb →
        (na == nb) = false → na.length ≤ 20 ∧ nb.length ≤ 20) →
      values_match a b = values_match b a) := by
  constructor
  · intro a
    rcases a with _ | v
    · rfl
    · rcases h : normalize (some v) with _ | n
      · simp [values_match, h]
      · simp [values_match, h]
  · intro a b hout
    rcases a with _ | v1 <;> rcases b with _ | v2
    · rfl
    · rfl
    · rfl
    · rcases h1 : normalize (some v1) with _ | n1 <;>
        rcases h2 : normalize (some v2) with _ | n2
      · simp [values_match, h1, h2]
      · simp [values_match, h1, h2]
      · simp [values_match, h1, h2]
      · by_cases heq : (n1 == n2) = true
        · have heq' : n1 = n2 := beq_iff_eq.mp heq
          subst heq'
          simp [values_match, h1, h2]
        · have hne : (n1 == n2) = false := by simpa using heq
          have hne' : (n2 == n1) = false := by
            rcases hb : n2 == n1 with _ | _
            · rfl
            · exfalso
              rw [beq_iff_eq.mp hb] at hne
              simp at hne
          obtain ⟨hl1, hl2⟩ := hout n1 n2 h1 h2 hne
          have hlen : (20 < n1.length || 20 < n2.length) = false := by
            simp only [Bool.or_eq_false_iff, decide_eq_false_iff_not, not_lt]
            exact ⟨hl1, hl2⟩
          have hlen' : (20 < n2.length || 20 < n1.length) = false := by
            simp only [Bool.or_eq_false_iff, decide_eq_false_iff_not, not_lt]
            exact ⟨hl2, hl1⟩
          simp [values_match, h1, h2, hne, hne', hlen, hlen']

/-- Witness for the amended C5 claim: reflexivity at a concrete value and
symmetry at a concrete short (non-fuzzy) pair. -/
theorem values_match_reflexive_and_symmetric_outside_fuzzy_witness :
    values_match (some "abc".data) (some "abc".data) = true ∧
    values_match (some "abc".data) (some "abd".data)
      = values_match (some "abd".data) (some "abc".data) :=
  ⟨values_match_reflexive_and_symmetric_outside_fuzzy.1 (some "abc".data),
   values_match_reflexive_and_symmetric_outside_fuzzy.2 (some "abc".data)
    (some "abd".data) (by
      intro na nb hna hnb _
      rw [show normalize (some "abc".data) = some "abc".data from by decide]
        at hna
      rw [show normalize (some "abd".data) = some "abd".data from by decide]
        at hnb
      obtain rfl : "abc".data = na := by injection hna
      obtain rfl : "abd".data = nb := by injection hnb
      exact ⟨by decide, by decide⟩)⟩

end DDT
